import Mathlib

/-!
# nomad-dispatch-repro: the dispatch harness of `main.go`

A shallow embedding of `main.go`:

* `backup`, the instance poller, as a function of what the scheduler and the
  Go runtime hand to it (the dispatch response and, for every pass through
  the `select`, which cases are ready and what the allocation query returns);
* `run`, the worker, as the sequence of effects it performs;
* `main`, the pool: worker goroutines, the goroutine that closes `errCh`,
  and the loop that ranges over `errCh`, as an executable step function driven
  by a schedule.

Go `error` values are `Option GoError` (`none` is `nil`).  The flag
`goroutines` is an integer, and `main` follows what `wg.Add` and the loop
bound `goroutines+1` do with it in 32 and 64 bits.  The iteration count
`loops` and the loop indices are natural numbers (a negative `loops` starts no
iteration, like 0).
-/

namespace NomadDispatch

/-! ## Errors and the context -/

/-- A Go `error` value that is not `nil`. -/
inductive GoError where
  /-- The value `context.Canceled`, what `ctx.Err()` is after an interrupt. -/
  | canceled
  /-- An error built by `fmt.Errorf` with the given text. -/
  | errorf (msg : String)
  /-- An error handed back by the nomad client or the operating system. -/
  | other (msg : String)
  deriving DecidableEq, Repr

/-- The method `Error()` of an error value. -/
def GoError.Error : GoError → String
  | .canceled => "context canceled"
  | .errorf msg => msg
  | .other msg => msg

/-! ## The instance poller `backup` -/

/-- The field of `api.TaskEvent` that `backup` reads. -/
structure TaskEvent where
  DisplayMessage : String
  deriving DecidableEq, Repr

/-- The fields of `api.TaskState` that `backup` reads. -/
structure TaskState where
  State : String
  Failed : Bool
  Events : List TaskEvent
  deriving DecidableEq, Repr

/-- The fields of `api.AllocationListStub` that `backup` reads; the map
`TaskStates` is an association list searched by key. -/
structure AllocationListStub where
  ID : String
  TaskStates : List (String × TaskState)
  deriving DecidableEq, Repr

/-- Constant `jobID` of `backup`. -/
def jobID : String := "sleeper"

/-- Constant `taskName` of `backup`. -/
def taskName : String := "sleeper"

/-- The rendering of a plain string by the verb `%q`. -/
def quoted (s : String) : String := "\"" ++ s ++ "\""

/-- The loop `for _, event := range state.Events` of `backup`, which appends
to `msg` one piece per event. -/
def eventsMsg (events : List TaskEvent) : String :=
  events.foldl (fun msg event => msg ++ ("<" ++ event.DisplayMessage ++ "> ")) ""

/-- The error of a dispatch the scheduler rejects. -/
def dispatchError (err : GoError) : GoError :=
  .errorf ("failed to dispatch nomad job: " ++ err.Error)

/-- The error of a failed allocation query. -/
def queryError (dispatchedJobID : String) (err : GoError) : GoError :=
  .errorf ("unexpected error fetching allocation from dispatch ID " ++ dispatchedJobID
    ++ ": " ++ err.Error)

/-- The error of an allocation without the task. -/
def structuralError (dispatchedJobID : String) : GoError :=
  .errorf ("expected " ++ quoted taskName ++ " task but none is found for dispatch ID "
    ++ dispatchedJobID)

/-- The error of a dead task that failed. -/
def taskFailedError (dispatchedJobID : String) (events : List TaskEvent) : GoError :=
  .errorf (taskName ++ " task failed " ++ dispatchedJobID ++ ": events: " ++ eventsMsg events)

/-- What one pass through the `tick.C` case does with the loop. -/
inductive Decision where
  /-- The statement `continue`. -/
  | keepPolling
  /-- A `return`: `err` is the error returned, `none` for `struct{}{}, nil`. -/
  | ret (err : Option GoError)
  deriving DecidableEq, Repr

/-- The file written when the task is missing: its name and the allocations
encoded into it. -/
structure Snapshot where
  name : String
  allocs : List AllocationListStub
  deriving DecidableEq, Repr

/-- The body of `case <-tick.C:` once the query has answered with `resp`:
the decision, and the diagnostic file written on the way. -/
def onTick (dispatchedJobID : String) (resp : Except GoError (List AllocationListStub)) :
    Decision × Option Snapshot :=
  match resp with
  | .error err => (.ret (some (queryError dispatchedJobID err)), none)
  | .ok allocs =>
    match allocs with
    | [] => (.keepPolling, none)
    | alloc0 :: _ =>
      match alloc0.TaskStates.lookup taskName with
      | none =>
        (.ret (some (structuralError dispatchedJobID)),
          some { name := alloc0.ID ++ ".alloc.json", allocs := allocs })
      | some state =>
        if state.State ≠ "dead" then (.keepPolling, none)
        else if state.Failed then
          (.ret (some (taskFailedError dispatchedJobID state.Events)), none)
        else (.ret none, none)

/-- The case a `select` over `ctx.Done()` and `tick.C` runs. -/
inductive SelectCase where
  | ctxDone
  | tick
  /-- Neither channel is ready: the goroutine stays parked. -/
  | parked
  deriving DecidableEq, Repr

/-- Go's `select`: a case that can proceed is run; when both can, the runtime
picks one of them (`pickTick` is its pick); there is no order among cases. -/
def goSelect (doneReady tickReady pickTick : Bool) : SelectCase :=
  match doneReady, tickReady with
  | false, false => .parked
  | true, false => .ctxDone
  | false, true => .tick
  | true, true => if pickTick then .tick else .ctxDone

/-- What the surroundings present at one pass through the `select`. -/
structure Round where
  /-- The value of `ctx.Err()`; `ctx.Done()` is ready exactly when it is set. -/
  ctxErr : Option GoError
  /-- A tick is waiting on `tick.C`. -/
  tickReady : Bool
  /-- The pick of the runtime should both cases be ready. -/
  pickTick : Bool
  /-- The answer of `client.Jobs().Allocations`, should it be called. -/
  allocs : Except GoError (List AllocationListStub)

/-- What a call of `backup` has done over the rounds it was given. -/
structure PollResult where
  /-- Unset: still in the loop; `some none`: returned `struct{}{}, nil`;
  `some (some e)`: returned `nil, e`. -/
  returned : Option (Option GoError)
  /-- The number of allocation queries made. -/
  queries : Nat
  /-- The diagnostic files written. -/
  files : List Snapshot
  deriving DecidableEq, Repr

/-- One more allocation query, and maybe a file, before the rest. -/
def PollResult.afterQuery (file : Option Snapshot) (r : PollResult) : PollResult :=
  { r with queries := r.queries + 1, files := file.toList ++ r.files }

/-- The loop `for { select { ... } }` of `backup`. -/
def pollLoop (dispatchedJobID : String) : List Round → PollResult
  | [] => { returned := none, queries := 0, files := [] }
  | r :: rest =>
    match goSelect r.ctxErr.isSome r.tickReady r.pickTick with
    | .parked => pollLoop dispatchedJobID rest
    | .ctxDone => { returned := some r.ctxErr, queries := 0, files := [] }
    | .tick =>
      match onTick dispatchedJobID r.allocs with
      | (.keepPolling, file) => (pollLoop dispatchedJobID rest).afterQuery file
      | (.ret err, file) =>
        PollResult.afterQuery file { returned := some err, queries := 0, files := [] }

/-- The function `backup`: `dispatch` is the scheduler's answer to
`client.Jobs().Dispatch(jobID, map[dur:param], ...)`, either an error or the
`DispatchedJobID`. -/
def backup (param : String) (dispatch : String → String → Except GoError String)
    (rounds : List Round) : PollResult :=
  match dispatch jobID param with
  | .error err => { returned := some (some (dispatchError err)), queries := 0, files := [] }
  | .ok dispatchedJobID => pollLoop dispatchedJobID rounds

/-! ## The worker `run` -/

/-- The struct `result`. -/
structure result where
  i : Nat
  p : String
  err : Option GoError
  deriving DecidableEq, Repr

/-- What the surroundings hand to one call of `run`. -/
structure WorkerEnv where
  /-- The error of `api.NewClient` in `run`. -/
  clientErr : Option GoError
  /-- The error returned by the call of `backup` in iteration `i`. -/
  backupErr : Nat → Option GoError
  /-- Whether `ctx.Err() != nil` at the check that ends iteration `i`. -/
  cancelled : Nat → Bool

/-- The effects of a worker goroutine, in program order. -/
inductive Event where
  /-- The call `api.NewClient(api.DefaultConfig())`. -/
  | newClient
  /-- The call of `backup` in iteration `i`. -/
  | call (i : Nat)
  /-- The send `errCh <- r`. -/
  | send (r : result)
  /-- The deferred call `done()`, which is `wg.Done`. -/
  | done
  deriving DecidableEq, Repr

/-- The loop `for i := 0; i < loops; i++` of `run` from index `i` on, with
`loops - i` iterations left to start. -/
def runLoop (env : WorkerEnv) (param : String) (i : Nat) : Nat → List Event
  | 0 => []
  | left + 1 =>
    .call i :: .send { i := i, p := param, err := env.backupErr i } ::
      (if env.cancelled i then [] else runLoop env param (i + 1) left)

/-- The function `run`: the body, then the deferred `done()`. -/
def run (env : WorkerEnv) (loops : Nat) (param : String) : List Event :=
  (.newClient ::
    match env.clientErr with
    | some err => [.send { i := 0, p := "<init>", err := some err }]
    | none => runLoop env param 0 loops) ++ [.done]

/-! ## The pool in `main` -/

/-- Where the goroutine `func() { wg.Wait(); close(errCh) }()` stands. -/
inductive CloserPc where
  /-- In `wg.Wait()`. -/
  | waiting
  /-- Past `wg.Wait()`, before `close(errCh)`. -/
  | closing
  /-- Returned. -/
  | exited
  deriving DecidableEq, Repr

/-- The state of the process once the goroutines are started. -/
structure Pool where
  /-- For each worker goroutine, the effects it has still to perform. -/
  workers : List (List Event)
  /-- The values buffered in `errCh`, oldest first. -/
  errCh : List result
  /-- Whether `errCh` is closed. -/
  closed : Bool
  /-- How many times `close(errCh)` has run. -/
  closes : Nat
  /-- The counter of the `sync.WaitGroup`. -/
  wg : Nat
  closer : CloserPc
  oks : Nat
  errs : Nat
  /-- The results taken from `errCh` by the loop of `main`, oldest first. -/
  received : List result
  /-- The numbers of the last log line, `oks+errs` and `errs`, once printed. -/
  summary : Option (Nat × Nat)
  /-- A goroutine has panicked: send on a closed channel, close of a closed
  channel, or a negative WaitGroup counter. -/
  crashed : Bool
  deriving DecidableEq, Repr

/-- The capacity of `errCh`, from `make(chan result, 100)`. -/
def errChCap : Nat := 100

/-- Who takes the next step. -/
inductive Action where
  | worker (j : Nat)
  | closer
  | aggregator
  deriving DecidableEq, Repr

/-- The next effect of worker `j`. -/
def stepWorker (s : Pool) (j : Nat) : Option Pool :=
  match s.workers[j]? with
  | none => none
  | some [] => none
  | some (ev :: rest) =>
    match ev with
    | .newClient => some { s with workers := s.workers.set j rest }
    | .call _ => some { s with workers := s.workers.set j rest }
    | .send r =>
      if s.closed then some { s with crashed := true }
      else if s.errCh.length < errChCap then
        some { s with workers := s.workers.set j rest, errCh := s.errCh ++ [r] }
      else none
    | .done =>
      if s.wg = 0 then some { s with crashed := true }
      else some { s with workers := s.workers.set j rest, wg := s.wg - 1 }

/-- The next statement of the goroutine that closes `errCh`. -/
def stepCloser (s : Pool) : Option Pool :=
  match s.closer with
  | .waiting => if s.wg = 0 then some { s with closer := .closing } else none
  | .closing =>
    if s.closed then some { s with crashed := true }
    else some { s with closed := true, closes := s.closes + 1, closer := .exited }
  | .exited => none

/-- One pass of `for r := range errCh`, or the statements after the loop. -/
def stepAggregator (s : Pool) : Option Pool :=
  match s.errCh with
  | r :: rest =>
    if r.err ≠ none then
      some { s with errCh := rest, errs := s.errs + 1, received := s.received ++ [r] }
    else
      some { s with errCh := rest, oks := s.oks + 1, received := s.received ++ [r] }
  | [] =>
    if s.closed then some { s with summary := some (s.oks + s.errs, s.errs) } else none

/-- One step of the process; `none` when the chosen goroutine cannot move.
Nothing moves after a panic or after `main` has returned. -/
def step (s : Pool) (a : Action) : Option Pool :=
  if s.crashed ∨ s.summary ≠ none then none
  else
    match a with
    | .worker j => stepWorker s j
    | .closer => stepCloser s
    | .aggregator => stepAggregator s

/-- The run of a schedule; `none` when it names a goroutine that cannot move. -/
def exec (s : Pool) : List Action → Option Pool
  | [] => some s
  | a :: rest =>
    match step s a with
    | none => none
    | some s1 => exec s1 rest

/-- The goroutines of a pool. -/
def actions (s : Pool) : List Action :=
  .closer :: .aggregator :: (List.range s.workers.length).map .worker

/-- No goroutine can move. -/
def stuck (s : Pool) : Bool :=
  (actions s).all fun a => (step s a).isNone

/-- The table `digits` of `strconv`, as far as base 10 reads it. -/
def digitChar : Nat → Char
  | 0 => '0'
  | 1 => '1'
  | 2 => '2'
  | 3 => '3'
  | 4 => '4'
  | 5 => '5'
  | 6 => '6'
  | 7 => '7'
  | 8 => '8'
  | _ => '9'

/-- The digit loop of `strconv.FormatInt` in base 10: the digits of `u` are
written from the last one back, in front of `acc`.  The first argument bounds
the number of digits; `u + 1` is enough. -/
def formatBits : Nat → Nat → List Char → List Char
  | 0, _, acc => acc
  | bound + 1, u, acc =>
    if u < 10 then digitChar u :: acc
    else formatBits bound (u / 10) (digitChar (u % 10) :: acc)

/-- The function `strconv.Itoa`: the decimal digits of `n`, after a minus sign
when `n` is negative. -/
def Itoa (n : Int) : String :=
  if n < 0 then String.mk ('-' :: formatBits (n.natAbs + 1) n.natAbs [])
  else String.mk (formatBits (n.toNat + 1) n.toNat [])

/-- The value of a decimal digit; `none` for any other character. -/
def digitValue : Char → Option Nat
  | '0' => some 0
  | '1' => some 1
  | '2' => some 2
  | '3' => some 3
  | '4' => some 4
  | '5' => some 5
  | '6' => some 6
  | '7' => some 7
  | '8' => some 8
  | '9' => some 9
  | _ => none

/-- The number read so far is `acc`; read the digits of `cs` after it. -/
def valueFrom (acc : Nat) : List Char → Option Nat
  | [] => some acc
  | c :: cs =>
    match digitValue c with
    | none => none
    | some d => valueFrom (acc * 10 + d) cs

/-- The number a string denotes in decimal: each character is a digit, the
first the most significant; `none` for the empty string and for a string with
a character that is no digit. -/
def decimalValue (s : String) : Option Nat :=
  match s.data with
  | [] => none
  | c :: cs => valueFrom 0 (c :: cs)

/-- The conversion `int32(n)`: the value of the low 32 bits, in two's
complement. -/
def int32 (n : Int) : Int := (n + 2147483648) % 4294967296 - 2147483648

/-- The value of `n` in an `int`, 64 bits wide, in two's complement. -/
def int64 (n : Int) : Int :=
  (n + 9223372036854775808) % 18446744073709551616 - 9223372036854775808

/-- The parameter of goroutine number `i`: `strconv.Itoa(i % maxSleep)`, with
Go's remainder, which truncates towards zero. -/
def workerParam (i : Nat) (maxSleep : Int) : String :=
  Itoa ((i : Int).tmod maxSleep)

/-- The loop `for i := 1; i < goroutines+1; i++` of `main` from `i` on, with
`left` goroutines still to start. -/
def spawn (env : Nat → WorkerEnv) (loops : Nat) (maxSleep : Int) (i : Nat) :
    Nat → List (List Event)
  | 0 => []
  | left + 1 =>
    run (env i) loops (workerParam i maxSleep) :: spawn env loops maxSleep (i + 1) left

/-- The process at `Start the dispatching!`, once `wg.Add(goroutines)` has
run and the goroutines are started: `errCh` is empty and open, the closing
goroutine is in `wg.Wait()`, and `oks, errs := 0, 0`. -/
def dispatching (workers : List (List Event)) (goroutines : Nat) : Pool :=
  { workers := workers
    errCh := []
    closed := false
    closes := 0
    wg := goroutines
    closer := .waiting
    oks := 0
    errs := 0
    received := []
    summary := none
    crashed := false }

/-- What the surroundings hand to `main`. -/
structure MainEnv where
  /-- The error of `api.NewClient` in `main`. -/
  newClient : Option GoError
  /-- The result of `os.ReadFile(jobFile)`. -/
  readFile : Except GoError String
  /-- The error of `client.Jobs().ParseHCL` on the text read. -/
  parseHCL : String → Option GoError
  /-- The error of `client.Jobs().Register`. -/
  register : Option GoError
  /-- The surroundings of goroutine number `i`. -/
  worker : Nat → WorkerEnv

/-- How `main` gets to the dispatching. -/
inductive Startup where
  /-- The call `os.Exit(code)` after writing `stderr`. -/
  | exit (code : Nat) (stderr : String)
  /-- A run-time panic while starting goroutines. -/
  | crash (msg : String)
  /-- The goroutines are started. -/
  | pool (s : Pool)
  deriving DecidableEq, Repr

/-- The function `main` up to the loop over `errCh`; `goroutines` is the
value of the flag, an `int`.  The call `wg.Add(goroutines)` on the fresh
WaitGroup leaves `int32(goroutines)` in its 32-bit counter and panics when
that is negative; the loop `for i := 1; i < goroutines+1; i++` then starts
`goroutines` workers, none when `goroutines+1` is not above 1 in an `int`. -/
def main (env : MainEnv) (goroutines : Int) (maxSleep : Int) (loops : Nat) : Startup :=
  match env.newClient with
  | some err => .exit 1 ("error creating client: " ++ err.Error ++ "\n")
  | none =>
    match env.readFile with
    | .error err => .exit 1 ("error reading jobspec: " ++ err.Error ++ "\n")
    | .ok jobHCL =>
      match env.parseHCL jobHCL with
      | some err => .exit 1 ("error parsing hcl: " ++ err.Error ++ "\n")
      | none =>
        match env.register with
        | some err => .exit 1 ("error registering job: " ++ err.Error ++ "\n")
        | none =>
          if int32 goroutines < 0 then
            .crash "sync: negative WaitGroup counter"
          else if 1 < int64 (goroutines + 1) ∧ maxSleep = 0 then
            .crash "runtime error: integer divide by zero"
          else
            .pool (dispatching
              (spawn env.worker loops maxSleep 1 (int64 (goroutines + 1) - 1).toNat)
              (int32 goroutines).toNat)

/-! ## Measures on effects and pools -/

/-- The results a list of effects sends, in order. -/
def sendsOf (t : List Event) : List result :=
  t.filterMap fun ev =>
    match ev with
    | .send r => some r
    | _ => none

/-- The iterations in which a list of effects calls `backup`, in order. -/
def callsOf (t : List Event) : List Nat :=
  t.filterMap fun ev =>
    match ev with
    | .call i => some i
    | _ => none

/-- The effect is the call `done()`. -/
def Event.isDone : Event → Bool
  | .done => true
  | _ => false

/-- The result carries an error. -/
def result.failed (r : result) : Bool := r.err.isSome

/-- The sum of `f` over the worker goroutines. -/
def sumOver (f : List Event → Nat) (ws : List (List Event)) : Nat :=
  (ws.map f).sum

/-- The calls `done()` still to come. -/
def pendingDones (ws : List (List Event)) : Nat :=
  sumOver (fun t => t.countP Event.isDone) ws

/-- The sends still to come whose result satisfies `q`. -/
def pendingSends (q : result → Bool) (ws : List (List Event)) : Nat :=
  sumOver (fun t => (sendsOf t).countP q) ws

/-- The statements the closing goroutine has still to run. -/
def CloserPc.left : CloserPc → Nat
  | .waiting => 2
  | .closing => 1
  | .exited => 0

/-- A bound on the number of steps a pool can still take. -/
def fuel (s : Pool) : Nat :=
  2 * sumOver List.length s.workers + s.errCh.length + s.closer.left
    + (if s.summary = none then 1 else 0) + (if s.crashed then 0 else 1)

/-- The number of calls of `backup` that return an error, over goroutines
`1 .. goroutines` and iterations `0 .. loops - 1`. -/
def failedCalls (env : Nat → WorkerEnv) (goroutines loops : Nat) : Nat :=
  ((List.range' 1 goroutines).map fun i =>
    (List.range loops).countP fun k => ((env i).backupErr k).isSome).sum

/-- The effects of the iterations `i, .., i + m - 1`, none of them cut short. -/
def iterations (env : WorkerEnv) (param : String) (i m : Nat) : List Event :=
  (List.range' i m).flatMap fun k =>
    [.call k, .send { i := k, p := param, err := env.backupErr k }]

/-- What holds of every pool reached from one whose worker goroutines have
the effects `ws0` to perform. -/
structure Inv (ws0 : List (List Event)) (s : Pool) : Prop where
  notCrashed : s.crashed = false
  shape : ∀ t ∈ s.workers, t = [] ∨ t.getLast? = some .done
  wgCount : s.wg = pendingDones s.workers
  closerWaiting : s.closer = .waiting → s.closed = false ∧ s.closes = 0
  closerClosing : s.closer = .closing → s.closed = false ∧ s.closes = 0 ∧ s.wg = 0
  closerExited : s.closer = .exited → s.closed = true ∧ s.closes = 1 ∧ s.wg = 0
  summaryOk : ∀ x, s.summary = some x →
    s.closed = true ∧ s.errCh = [] ∧ x = (s.oks + s.errs, s.errs)
  tallyTotal : s.oks + s.errs = s.received.length
  tallyErrs : s.errs = s.received.countP result.failed
  conserve : ∀ q : result → Bool,
    s.received.countP q + s.errCh.countP q + pendingSends q s.workers = pendingSends q ws0
  size : s.workers.length = ws0.length

/-! ## Sample surroundings -/

/-- Surroundings in which everything succeeds but the call of `backup` in
iteration 0 of goroutine 2, and nothing is cancelled. -/
def sampleEnv : MainEnv :=
  { newClient := none
    readFile := .ok "job"
    parseHCL := fun _ => none
    register := none
    worker := fun i =>
      { clientErr := none
        backupErr := fun k => if i = 2 ∧ k = 0 then some (.errorf "boom") else none
        cancelled := fun _ => false } }

/-- The pool of two goroutines with one iteration each under `sampleEnv`. -/
def samplePool : Pool :=
  dispatching (spawn sampleEnv.worker 1 3 1 2) 2

/-- A schedule of `samplePool`: goroutine 1 runs to its end, then goroutine
2, then the closing goroutine, then the loop over `errCh`. -/
def sampleSchedule : List Action :=
  [.worker 0, .worker 0, .worker 0, .worker 0, .worker 1, .worker 1, .worker 1, .worker 1,
   .closer, .closer, .aggregator, .aggregator, .aggregator]

/-- The pool in which `sampleSchedule` ends. -/
def sampleFinal : Pool :=
  { workers := [[], []]
    errCh := []
    closed := true
    closes := 1
    wg := 0
    closer := .exited
    oks := 1
    errs := 1
    received := [{ i := 0, p := "1", err := none },
                 { i := 0, p := "2", err := some (.errorf "boom") }]
    summary := some (2, 1)
    crashed := false }

/-- Surroundings in which every worker sees the cancellation at the check
that ends its second iteration, and every call of `backup` before succeeds. -/
def cancelEnv : MainEnv :=
  { newClient := none
    readFile := .ok "job"
    parseHCL := fun _ => none
    register := none
    worker := fun _ =>
      { clientErr := none
        backupErr := fun k => if k = 1 then some .canceled else none
        cancelled := fun k => decide (1 ≤ k) } }

/-- The pool of one goroutine with three iterations under `cancelEnv`. -/
def cancelPool : Pool :=
  dispatching (spawn cancelEnv.worker 3 3 1 1) 1

/-- A schedule of `cancelPool` in which the loop over `errCh` takes each
result as soon as it is sent. -/
def cancelSchedule : List Action :=
  [.worker 0, .worker 0, .worker 0, .aggregator, .worker 0, .worker 0, .aggregator,
   .worker 0, .closer, .closer, .aggregator]

/-- The pool in which `cancelSchedule` ends. -/
def cancelFinal : Pool :=
  { workers := [[]]
    errCh := []
    closed := true
    closes := 1
    wg := 0
    closer := .exited
    oks := 1
    errs := 1
    received := [{ i := 0, p := "1", err := none },
                 { i := 1, p := "1", err := some .canceled }]
    summary := some (2, 1)
    crashed := false }

/-- Surroundings in which `main` starts well and the client of every worker
cannot be built. -/
def initFailEnv : MainEnv :=
  { newClient := none
    readFile := .ok "job"
    parseHCL := fun _ => none
    register := none
    worker := fun _ =>
      { clientErr := some (.other "invalid address")
        backupErr := fun _ => none
        cancelled := fun _ => false } }

/-- The pool of one goroutine with two iterations under `initFailEnv`. -/
def initFailPool : Pool :=
  dispatching (spawn initFailEnv.worker 2 3 1 1) 1

/-- A schedule of `initFailPool` that runs it to its end. -/
def initFailSchedule : List Action :=
  [.worker 0, .worker 0, .worker 0, .closer, .closer, .aggregator, .aggregator]

/-- The pool in which `initFailSchedule` ends. -/
def initFailFinal : Pool :=
  { workers := [[]]
    errCh := []
    closed := true
    closes := 1
    wg := 0
    closer := .exited
    oks := 0
    errs := 1
    received := [{ i := 0, p := "<init>", err := some (.other "invalid address") }]
    summary := some (1, 1)
    crashed := false }

/-- Surroundings in which the client of `main` cannot be built. -/
def noClientEnv : MainEnv :=
  { sampleEnv with newClient := some (.other "invalid address") }

/-- The pool of three goroutines with one iteration each under `sampleEnv`,
with `max-sleep` 3. -/
def samplePool3 : Pool :=
  dispatching (spawn sampleEnv.worker 1 3 1 3) 3

/-! ## The poller: facts about `backup` -/

theorem eventsMsg_eq_join (events : List TaskEvent) :
    eventsMsg events = String.join (events.map fun e => "<" ++ e.DisplayMessage ++ "> ") := by
  unfold eventsMsg String.join
  rw [List.foldl_map]

theorem backup_dispatched {param id : String}
    {dispatch : String → String → Except GoError String}
    (hd : dispatch "sleeper" param = .ok id) (rounds : List Round) :
    backup param dispatch rounds = pollLoop id rounds := by
  have hd2 : dispatch jobID param = .ok id := hd
  simp only [backup, hd2]

theorem pollLoop_tick (id : String) (r : Round) (rest : List Round)
    (hsel : goSelect r.ctxErr.isSome r.tickReady r.pickTick = .tick) :
    pollLoop id (r :: rest)
      = match onTick id r.allocs with
        | (.keepPolling, file) => (pollLoop id rest).afterQuery file
        | (.ret err, file) => { returned := some err, queries := 1, files := file.toList } := by
  simp only [pollLoop, hsel]
  cases h : onTick id r.allocs with
  | mk d file => cases d <;> simp [PollResult.afterQuery]

/-- C3: on a tick with cancellation not signaled the poller decides in this
order: a failed query returns the query error after that one query, whatever
comes later; no allocation keeps polling; a first allocation without the task
`sleeper` returns the structural error; a task state other than `dead` keeps
polling whatever its failed flag; `dead` and failed returns the task-failed
error; `dead` and not failed returns success; and the decision depends on the
first allocation only. -/
theorem tick_decision (param id : String)
    (dispatch : String → String → Except GoError String) (r : Round) (rest : List Round)
    (hd : dispatch "sleeper" param = .ok id)
    (hctx : r.ctxErr = none) (htick : r.tickReady = true) :
    (∀ e, r.allocs = .error e →
      backup param dispatch (r :: rest)
        = { returned := some (some (.errorf
              ("unexpected error fetching allocation from dispatch ID " ++ id ++ ": "
                ++ e.Error))),
            queries := 1, files := [] }) ∧
    (r.allocs = .ok [] →
      backup param dispatch (r :: rest) = (backup param dispatch rest).afterQuery none) ∧
    (∀ a more, r.allocs = .ok (a :: more) → a.TaskStates.lookup "sleeper" = none →
      backup param dispatch (r :: rest)
        = { returned := some (some (.errorf
              ("expected \"sleeper\" task but none is found for dispatch ID " ++ id))),
            queries := 1,
            files := [{ name := a.ID ++ ".alloc.json", allocs := a :: more }] }) ∧
    (∀ a more st, r.allocs = .ok (a :: more) → a.TaskStates.lookup "sleeper" = some st →
      st.State ≠ "dead" →
      backup param dispatch (r :: rest) = (backup param dispatch rest).afterQuery none) ∧
    (∀ a more st, r.allocs = .ok (a :: more) → a.TaskStates.lookup "sleeper" = some st →
      st.State = "dead" → st.Failed = true →
      backup param dispatch (r :: rest)
        = { returned := some (some (taskFailedError id st.Events)), queries := 1,
            files := [] }) ∧
    (∀ a more st, r.allocs = .ok (a :: more) → a.TaskStates.lookup "sleeper" = some st →
      st.State = "dead" → st.Failed = false →
      backup param dispatch (r :: rest)
        = { returned := some none, queries := 1, files := [] }) ∧
    (∀ a more, (onTick id (.ok (a :: more))).1 = (onTick id (.ok [a])).1) := by
  have hsel : goSelect r.ctxErr.isSome r.tickReady r.pickTick = .tick := by
    simp [hctx, htick, goSelect]
  rw [backup_dispatched hd, backup_dispatched hd, pollLoop_tick id r rest hsel]
  refine ⟨?_, ?_, ?_, ?_, ?_, ?_, ?_⟩
  · intro e he
    simp [he, onTick, queryError]
  · intro he
    simp [he, onTick]
  · intro a more he hl
    have hl2 : List.lookup taskName a.TaskStates = none := hl
    simp [he, onTick, hl, structuralError, quoted, taskName]
  · intro a more st he hl hst
    have hl2 : List.lookup taskName a.TaskStates = some st := hl
    simp [he, onTick, hl2, hst]
  · intro a more st he hl hst hf
    have hl2 : List.lookup taskName a.TaskStates = some st := hl
    simp [he, onTick, hl2, hst, hf]
  · intro a more st he hl hst hf
    have hl2 : List.lookup taskName a.TaskStates = some st := hl
    simp [he, onTick, hl2, hst, hf]
  · intro a more
    simp only [onTick]
    cases a.TaskStates.lookup taskName with
    | none => rfl
    | some st => rfl

/-- A tick on which the task `sleeper` is running with its failed flag set,
followed by a tick on which it is dead: the poller polls on, then returns
the task-failed error, having made two queries. -/
theorem tick_decision_witness :
    backup "2" (fun _ _ => .ok "d1")
      [{ ctxErr := none, tickReady := true, pickTick := false,
         allocs := .ok [{ ID := "a1", TaskStates :=
           [("sleeper", { State := "running", Failed := true, Events := [] })] }] },
       { ctxErr := none, tickReady := true, pickTick := false,
         allocs := .ok [{ ID := "a1", TaskStates :=
           [("sleeper", { State := "dead", Failed := true, Events := [⟨"oom"⟩] })] }] }]
      = { returned := some (some (taskFailedError "d1" [⟨"oom"⟩])), queries := 2,
          files := [] } := by
  rw [(tick_decision "2" "d1" (fun _ _ => .ok "d1") _ _ rfl rfl rfl).2.2.2.1
    { ID := "a1", TaskStates :=
      [("sleeper", { State := "running", Failed := true, Events := [] })] } []
    { State := "running", Failed := true, Events := [] } rfl (by decide) (by decide)]
  rw [(tick_decision "2" "d1" (fun _ _ => .ok "d1") _ [] rfl rfl rfl).2.2.2.2.1
    { ID := "a1", TaskStates :=
      [("sleeper", { State := "dead", Failed := true, Events := [⟨"oom"⟩] })] } []
    { State := "dead", Failed := true, Events := [⟨"oom"⟩] } rfl (by decide) rfl rfl]
  rfl

/-- C4: the poller returns for a dead failed task the error whose text is
`sleeper task failed `, the dispatch handle, `: events: `, and then, for each
event in the order reported, its display message between `<` and `>` followed
by one space; nothing else. -/
theorem task_failed_message (param id : String)
    (dispatch : String → String → Except GoError String) (r : Round) (rest : List Round)
    (a : AllocationListStub) (more : List AllocationListStub) (st : TaskState)
    (hd : dispatch "sleeper" param = .ok id)
    (hctx : r.ctxErr = none) (htick : r.tickReady = true)
    (hallocs : r.allocs = .ok (a :: more))
    (hl : a.TaskStates.lookup "sleeper" = some st) (hdead : st.State = "dead")
    (hfailed : st.Failed = true) :
    (backup param dispatch (r :: rest)).returned
      = some (some (.errorf ("sleeper task failed " ++ id ++ ": events: "
          ++ String.join (st.Events.map fun e => "<" ++ e.DisplayMessage ++ "> ")))) := by
  have hsel : goSelect r.ctxErr.isSome r.tickReady r.pickTick = .tick := by
    simp [hctx, htick, goSelect]
  have hl2 : List.lookup taskName a.TaskStates = some st := hl
  rw [backup_dispatched hd, pollLoop_tick id r rest hsel]
  simp only [hallocs, onTick, hl2, hdead, hfailed, taskFailedError, eventsMsg_eq_join]
  simp [taskName]

/-- The events `oom` then `killed` give
`sleeper task failed d1: events: <oom> <killed> `. -/
theorem task_failed_message_witness :
    (backup "2" (fun _ _ => .ok "d1")
      [{ ctxErr := none, tickReady := true, pickTick := false,
         allocs := .ok [{ ID := "a1", TaskStates :=
           [("sleeper", { State := "dead", Failed := true,
                          Events := [⟨"oom"⟩, ⟨"killed"⟩] })] }] }]).returned
      = some (some (.errorf "sleeper task failed d1: events: <oom> <killed> ")) :=
  task_failed_message "2" "d1" (fun _ _ => .ok "d1") _ []
    { ID := "a1", TaskStates :=
      [("sleeper", { State := "dead", Failed := true, Events := [⟨"oom"⟩, ⟨"killed"⟩] })] }
    [] { State := "dead", Failed := true, Events := [⟨"oom"⟩, ⟨"killed"⟩] }
    rfl rfl rfl rfl (by decide) rfl rfl

/-- C8, as stated, fails: with the token signaled and a tick pending, the
runtime may run the tick case; the poller then makes the query and returns
what the tick case returns, here the query error, not the error of the
token. -/
theorem cancel_priority_counterexample :
    (backup "2" (fun _ _ => .ok "d1")
        [{ ctxErr := some .canceled, tickReady := true, pickTick := true,
           allocs := .error .canceled }]).queries = 1 ∧
    (backup "2" (fun _ _ => .ok "d1")
        [{ ctxErr := some .canceled, tickReady := true, pickTick := true,
           allocs := .error .canceled }]).returned
      = some (some (.errorf
          "unexpected error fetching allocation from dispatch ID d1: context canceled")) ∧
    (backup "2" (fun _ _ => .ok "d1")
        [{ ctxErr := some .canceled, tickReady := true, pickTick := true,
           allocs := .error .canceled }]).returned ≠ some (some .canceled) := by
  decide

/-- C8, amended: with the token signaled, if no tick is pending or the runtime
runs the cancellation case the poller returns the error of the token itself
and makes no query; if a tick is pending and the runtime runs the tick case,
the poller makes the query and goes on as on any tick. -/
theorem cancel_observed (param id : String)
    (dispatch : String → String → Except GoError String) (r : Round) (rest : List Round)
    (e : GoError) (hd : dispatch "sleeper" param = .ok id) (hctx : r.ctxErr = some e) :
    backup param dispatch (r :: rest)
      = if r.tickReady = true ∧ r.pickTick = true then
          match onTick id r.allocs with
          | (.keepPolling, file) => (backup param dispatch rest).afterQuery file
          | (.ret err, file) =>
            { returned := some err, queries := 1, files := file.toList }
        else { returned := some (some e), queries := 0, files := [] } := by
  rw [backup_dispatched hd, backup_dispatched hd]
  cases ht : r.tickReady <;> cases hp : r.pickTick <;>
    simp [pollLoop, goSelect, hctx, ht, hp]
  cases h : onTick id r.allocs with
  | mk d file => cases d <;> simp [PollResult.afterQuery]

/-- The token is signaled and no tick is pending: the error of the token, no
query. -/
theorem cancel_observed_witness :
    backup "2" (fun _ _ => .ok "d1")
        [{ ctxErr := some .canceled, tickReady := false, pickTick := true,
           allocs := .ok [] }]
      = { returned := some (some .canceled), queries := 0, files := [] } :=
  cancel_observed "2" "d1" (fun _ _ => .ok "d1") _ [] .canceled rfl rfl

/-! ## The worker: facts about `run` -/

theorem iterations_succ (env : WorkerEnv) (param : String) (i m : Nat) :
    iterations env param i (m + 1)
      = .call i :: .send { i := i, p := param, err := env.backupErr i } ::
          iterations env param (i + 1) m := by
  simp [iterations, List.range'_succ]

theorem runLoop_stops (env : WorkerEnv) (param : String) :
    ∀ (m i n : Nat), m ≤ n →
      (∀ k, i ≤ k → k + 1 < i + m → env.cancelled k = false) →
      (m < n → 0 < m ∧ env.cancelled (i + m - 1) = true) →
      runLoop env param i n = iterations env param i m := by
  intro m
  induction m with
  | zero =>
    intro i n _ _ hstop
    cases n with
    | zero => simp [runLoop, iterations]
    | succ n => exact absurd (hstop (Nat.succ_pos n)).1 (lt_irrefl 0)
  | succ m ih =>
    intro i n hmn hgo hstop
    cases n with
    | zero => omega
    | succ n =>
      rw [iterations_succ]
      simp only [runLoop]
      cases hc : env.cancelled i with
      | true =>
        have hm : m = 0 := by
          by_contra hne
          have := hgo i (le_refl i) (by omega)
          rw [hc] at this
          exact Bool.noConfusion this
        subst hm
        simp [iterations]
      | false =>
        have hrec := ih (i + 1) n (by omega)
          (fun k hk1 hk2 => hgo k (by omega) (by omega))
          (fun hlt => by
            have h := hstop (by omega)
            have e1 : i + (m + 1) - 1 = i + m := by omega
            rw [e1] at h
            refine ⟨?_, ?_⟩
            · by_contra hne
              have hm : m = 0 := by omega
              subst hm
              have h2 := h.2
              rw [Nat.add_zero, hc] at h2
              exact Bool.noConfusion h2
            · have e2 : i + 1 + m - 1 = i + m := by omega
              rw [e2]
              exact h.2)
        simp [hrec]

theorem sendsOf_iterations (env : WorkerEnv) (param : String) :
    ∀ (m i : Nat), sendsOf (iterations env param i m)
      = (List.range' i m).map fun k => { i := k, p := param, err := env.backupErr k } := by
  intro m
  induction m with
  | zero => intro i; simp [iterations, sendsOf]
  | succ m ih =>
    intro i
    rw [iterations_succ, List.range'_succ, List.map_cons, ← ih (i + 1)]
    simp [sendsOf]

theorem callsOf_iterations (env : WorkerEnv) (param : String) :
    ∀ (m i : Nat), callsOf (iterations env param i m) = List.range' i m := by
  intro m
  induction m with
  | zero => intro i; simp [iterations, callsOf]
  | succ m ih =>
    intro i
    rw [iterations_succ, List.range'_succ, ← ih (i + 1)]
    simp [callsOf]

theorem run_of_runLoop (env : WorkerEnv) (loops : Nat) (param : String)
    (hclient : env.clientErr = none) :
    run env loops param = .newClient :: (runLoop env param 0 loops ++ [.done]) := by
  simp [run, hclient]

theorem run_iterations (env : WorkerEnv) (N m : Nat) (p : String)
    (hclient : env.clientErr = none) (hm : m ≤ N)
    (hgo : ∀ k, k + 1 < m → env.cancelled k = false)
    (hstop : m < N → 0 < m ∧ env.cancelled (m - 1) = true) :
    run env N p = .newClient :: (iterations env p 0 m ++ [.done]) := by
  rw [run_of_runLoop env N p hclient,
    runLoop_stops env p m 0 N hm (fun k _ hk => hgo k (by omega))
      (fun h => by simpa using hstop h)]

theorem callsOf_run (env : WorkerEnv) (N m : Nat) (p : String)
    (hrun : run env N p = .newClient :: (iterations env p 0 m ++ [.done])) :
    callsOf (run env N p) = List.range m := by
  rw [hrun, List.range_eq_range', ← callsOf_iterations env p m 0]
  simp [callsOf]

theorem sendsOf_run (env : WorkerEnv) (N m : Nat) (p : String)
    (hrun : run env N p = .newClient :: (iterations env p 0 m ++ [.done])) :
    sendsOf (run env N p)
      = (List.range m).map fun k => { i := k, p := p, err := env.backupErr k } := by
  rw [hrun, List.range_eq_range', ← sendsOf_iterations env p m 0]
  simp [sendsOf]

/-- C2: a worker whose client is built, with no cancellation seen, performs
for `k = 0, .., N - 1` in this order the call of `backup` number `k` and then
the send of `(k, p, r_k)`, and nothing else but the client construction before
and `done()` after: `N` calls, `N` results, in increasing index order, whatever
the `r_k` are. -/
theorem worker_outcomes (env : WorkerEnv) (N : Nat) (p : String)
    (hclient : env.clientErr = none) (hctx : ∀ k, k < N → env.cancelled k = false) :
    run env N p
      = .newClient ::
          ((List.range N).flatMap fun k =>
            [.call k, .send { i := k, p := p, err := env.backupErr k }]) ++ [.done] ∧
    callsOf (run env N p) = List.range N ∧
    sendsOf (run env N p)
      = (List.range N).map fun k => { i := k, p := p, err := env.backupErr k } := by
  have hrun := run_iterations env N N p hclient (le_refl N) (fun k hk => hctx k (by omega))
    (fun h => absurd h (lt_irrefl N))
  refine ⟨?_, callsOf_run env N N p hrun, sendsOf_run env N N p hrun⟩
  rw [hrun, List.range_eq_range']
  rfl

/-- Three iterations, the second of which fails: three calls, three results,
the failure in the middle one. -/
theorem worker_outcomes_witness :
    sendsOf (run { clientErr := none,
                   backupErr := fun k => if k = 1 then some (.errorf "boom") else none,
                   cancelled := fun _ => false } 3 "2")
      = [{ i := 0, p := "2", err := none }, { i := 1, p := "2", err := some (.errorf "boom") },
         { i := 2, p := "2", err := none }] :=
  (worker_outcomes { clientErr := none,
                     backupErr := fun k => if k = 1 then some (.errorf "boom") else none,
                     cancelled := fun _ => false } 3 "2" rfl (fun _ _ => rfl)).2.2

/-! ## The pool: invariants of `step` -/

theorem sumOver_set (f : List Event → Nat) :
    ∀ (ws : List (List Event)) (j : Nat) (t t1 : List Event), ws[j]? = some t →
      sumOver f (ws.set j t1) + f t = sumOver f ws + f t1 := by
  intro ws
  induction ws with
  | nil => intro j t t1 h; simp at h
  | cons w ws ih =>
    intro j t t1 h
    cases j with
    | zero =>
      simp at h
      subst h
      simp [sumOver]
      omega
    | succ j =>
      simp at h
      have := ih j t t1 (by simpa using h)
      simp [sumOver] at this ⊢
      omega

theorem mem_of_get? {ws : List (List Event)} {j : Nat} {t : List Event}
    (h : ws[j]? = some t) : t ∈ ws :=
  List.getElem?_mem h

theorem shape_tail {ev : Event} {rest : List Event}
    (h : (ev :: rest) = [] ∨ (ev :: rest).getLast? = some .done) :
    rest = [] ∨ rest.getLast? = some .done := by
  cases rest with
  | nil => exact Or.inl rfl
  | cons b l =>
    right
    rcases h with h | h
    · exact absurd h (List.cons_ne_nil _ _)
    · rwa [List.getLast?_cons_cons] at h

theorem shape_set {ws : List (List Event)} {j : Nat} {rest : List Event}
    (hws : ∀ t ∈ ws, t = [] ∨ t.getLast? = some .done)
    (hrest : rest = [] ∨ rest.getLast? = some .done) :
    ∀ t ∈ ws.set j rest, t = [] ∨ t.getLast? = some .done := by
  intro t ht
  rcases List.mem_or_eq_of_mem_set ht with h | h
  · exact hws t h
  · exact h ▸ hrest

theorem done_pending_of_ne_nil {t : List Event} (hne : t ≠ [])
    (h : t = [] ∨ t.getLast? = some .done) : 0 < t.countP Event.isDone := by
  rcases h with h | h
  · exact absurd h hne
  · obtain ⟨ys, rfl⟩ := List.getLast?_eq_some_iff.mp h
    simp [List.countP_append, Event.isDone]

theorem sumOver_pos_of_mem (f : List Event → Nat) {ws : List (List Event)} {t : List Event}
    (ht : t ∈ ws) : f t ≤ sumOver f ws := by
  induction ws with
  | nil => simp at ht
  | cons w ws ih =>
    simp only [sumOver, List.map_cons, List.sum_cons]
    rcases List.mem_cons.mp ht with h | h
    · subst h; omega
    · have := ih h
      simp only [sumOver] at this
      omega

theorem all_nil_of_no_dones {ws : List (List Event)}
    (hws : ∀ t ∈ ws, t = [] ∨ t.getLast? = some .done) (h0 : pendingDones ws = 0) :
    ∀ t ∈ ws, t = [] := by
  intro t ht
  by_contra hne
  have h1 := done_pending_of_ne_nil hne (hws t ht)
  have h2 : t.countP Event.isDone ≤ pendingDones ws :=
    sumOver_pos_of_mem (fun t => t.countP Event.isDone) ht
  omega

theorem sumOver_zero_of_all_nil (f : List Event → Nat) (hf : f [] = 0)
    {ws : List (List Event)} (h : ∀ t ∈ ws, t = []) : sumOver f ws = 0 := by
  induction ws with
  | nil => rfl
  | cons w ws ih =>
    have hw : w = [] := h w (List.mem_cons_self _ _)
    have := ih (fun t ht => h t (List.mem_cons_of_mem _ ht))
    simp only [sumOver, List.map_cons, List.sum_cons] at this ⊢
    rw [hw, hf, this]

theorem pendingDones_set {ws : List (List Event)} {j : Nat} {ev : Event}
    {rest : List Event} (h : ws[j]? = some (ev :: rest)) :
    pendingDones (ws.set j rest) + (if ev.isDone = true then 1 else 0) = pendingDones ws := by
  have h1 : pendingDones (ws.set j rest) + (ev :: rest).countP Event.isDone
      = pendingDones ws + rest.countP Event.isDone :=
    sumOver_set (fun t => t.countP Event.isDone) ws j (ev :: rest) rest h
  rw [List.countP_cons] at h1
  omega

theorem pendingSends_set (q : result → Bool) {ws : List (List Event)} {j : Nat} {ev : Event}
    {rest : List Event} (h : ws[j]? = some (ev :: rest)) :
    pendingSends q (ws.set j rest) + (sendsOf [ev]).countP q = pendingSends q ws := by
  have h1 : pendingSends q (ws.set j rest) + (sendsOf (ev :: rest)).countP q
      = pendingSends q ws + (sendsOf rest).countP q :=
    sumOver_set (fun t => (sendsOf t).countP q) ws j (ev :: rest) rest h
  have h2 : sendsOf (ev :: rest) = sendsOf [ev] ++ sendsOf rest := by
    simp only [sendsOf]
    rw [← List.filterMap_append]
    rfl
  rw [h2, List.countP_append] at h1
  omega

theorem inv_stepWorker {ws0 : List (List Event)} {s s1 : Pool} {j : Nat}
    (h : Inv ws0 s) (hs : stepWorker s j = some s1) : Inv ws0 s1 := by
  unfold stepWorker at hs
  cases hg : s.workers[j]? with
  | none => simp [hg] at hs
  | some t =>
    cases t with
    | nil => simp [hg] at hs
    | cons ev rest =>
      have hmem := mem_of_get? hg
      have hshape := h.shape _ hmem
      have hrest := shape_tail hshape
      have hpos : 0 < pendingDones s.workers :=
        lt_of_lt_of_le (done_pending_of_ne_nil (List.cons_ne_nil _ _) hshape)
          (sumOver_pos_of_mem (fun t => t.countP Event.isDone) hmem)
      have hwg : s.wg ≠ 0 := by rw [h.wgCount]; omega
      have hcl : s.closer = .waiting := by
        cases hc : s.closer with
        | waiting => rfl
        | closing => exact absurd (h.closerClosing hc).2.2 hwg
        | exited => exact absurd (h.closerExited hc).2.2 hwg
      have hclosed : s.closed = false := (h.closerWaiting hcl).1
      have hd := pendingDones_set hg
      have hq := fun q => pendingSends_set q hg
      have hw := h.wgCount
      have hsz : (s.workers.set j rest).length = ws0.length := by
        rw [List.length_set]; exact h.size
      rw [hg] at hs
      cases ev with
      | newClient =>
        simp only [Option.some.injEq] at hs
        subst hs
        exact { h with
          shape := shape_set h.shape hrest
          wgCount := by simp [Event.isDone] at hd; simp only [hd]; exact hw
          conserve := fun q => by
            have := hq q; have := h.conserve q
            simp [sendsOf] at *; omega
          size := hsz }
      | call i =>
        simp only [Option.some.injEq] at hs
        subst hs
        exact { h with
          shape := shape_set h.shape hrest
          wgCount := by simp [Event.isDone] at hd; simp only [hd]; exact hw
          conserve := fun q => by
            have := hq q; have := h.conserve q
            simp [sendsOf] at *; omega
          size := hsz }
      | send r =>
        have hnc : ¬ (s.closed = true) := by simp [hclosed]
        dsimp only at hs
        rw [if_neg hnc] at hs
        by_cases hcap : s.errCh.length < errChCap
        · rw [if_pos hcap] at hs
          simp only [Option.some.injEq] at hs
          subst hs
          exact { h with
            shape := shape_set h.shape hrest
            wgCount := by simp [Event.isDone] at hd; simp only [hd]; exact hw
            summaryOk := fun x hx => by
              have := (h.summaryOk x hx).1
              rw [hclosed] at this
              exact Bool.noConfusion this
            conserve := fun q => by
              have := hq q; have := h.conserve q
              simp [sendsOf, List.countP_append, List.countP_cons] at *; omega
            size := hsz }
        · simp [hcap] at hs
      | done =>
        dsimp only at hs
        rw [if_neg hwg] at hs
        simp only [Option.some.injEq] at hs
        subst hs
        exact { h with
          shape := shape_set h.shape hrest
          wgCount := by simp [Event.isDone] at hd; simp only; omega
          closerClosing := fun hc => by simp [hcl] at hc
          closerExited := fun hc => by simp [hcl] at hc
          conserve := fun q => by
            have := hq q; have := h.conserve q
            simp [sendsOf] at *; omega
          size := hsz }

theorem inv_stepCloser {ws0 : List (List Event)} {s s1 : Pool}
    (h : Inv ws0 s) (hs : stepCloser s = some s1) : Inv ws0 s1 := by
  unfold stepCloser at hs
  cases hc : s.closer with
  | waiting =>
    rw [hc] at hs
    by_cases hwg : s.wg = 0
    · dsimp only at hs
      rw [if_pos hwg] at hs
      simp only [Option.some.injEq] at hs
      subst hs
      have hw := h.closerWaiting hc
      exact { h with
        closerWaiting := fun hc1 => by simp at hc1
        closerClosing := fun _ => ⟨hw.1, hw.2, hwg⟩
        closerExited := fun hc1 => by simp at hc1 }
    · simp [hwg] at hs
  | closing =>
    rw [hc] at hs
    have hw := h.closerClosing hc
    have hnc : ¬ (s.closed = true) := by simp [hw.1]
    dsimp only at hs
    rw [if_neg hnc] at hs
    simp only [Option.some.injEq] at hs
    subst hs
    exact { h with
      closerWaiting := fun hc1 => by simp at hc1
      closerClosing := fun hc1 => by simp at hc1
      closerExited := fun _ => ⟨rfl, by simp [hw.2.1], hw.2.2⟩
      summaryOk := fun x hx => by
        have := h.summaryOk x hx
        simp [hw.1] at this }
  | exited =>
    rw [hc] at hs
    simp at hs

theorem failed_iff (r : result) : r.failed = true ↔ r.err ≠ none := by
  cases r with
  | mk i p err => cases err <;> simp [result.failed]

theorem stepAggregator_nil {s : Pool} (h : s.errCh = []) :
    stepAggregator s
      = if s.closed = true then some { s with summary := some (s.oks + s.errs, s.errs) }
        else none := by
  unfold stepAggregator
  rw [h]

theorem stepAggregator_cons {s : Pool} {r : result} {rest : List result}
    (h : s.errCh = r :: rest) :
    stepAggregator s
      = if r.err ≠ none then
          some { s with errCh := rest, errs := s.errs + 1, received := s.received ++ [r] }
        else
          some { s with errCh := rest, oks := s.oks + 1, received := s.received ++ [r] } := by
  unfold stepAggregator
  rw [h]

theorem inv_stepAggregator {ws0 : List (List Event)} {s s1 : Pool}
    (h : Inv ws0 s) (hsum : s.summary = none) (hs : stepAggregator s = some s1) :
    Inv ws0 s1 := by
  cases hch : s.errCh with
  | nil =>
    rw [stepAggregator_nil hch] at hs
    by_cases hcl : s.closed = true
    · rw [if_pos hcl] at hs
      simp only [Option.some.injEq] at hs
      subst hs
      exact { h with
        summaryOk := fun x hx => by
          simp only [Option.some.injEq] at hx
          exact ⟨hcl, hch, hx.symm⟩ }
    · simp [hcl] at hs
  | cons r rest =>
    rw [stepAggregator_cons hch] at hs
    have hcons := h.conserve
    have ht := h.tallyTotal
    have he := h.tallyErrs
    by_cases hr : r.err ≠ none
    · have hf : r.failed = true := (failed_iff r).mpr hr
      rw [if_pos hr] at hs
      simp only [Option.some.injEq] at hs
      subst hs
      exact { h with
        summaryOk := fun x hx => by simp [hsum] at hx
        tallyTotal := by simp; omega
        tallyErrs := by simp [List.countP_append, List.countP_cons, hf]; omega
        conserve := fun q => by
          have := hcons q
          simp [hch, List.countP_append, List.countP_cons] at *; omega }
    · have hf : r.failed = false := by
        cases hfr : r.failed with
        | false => rfl
        | true => exact absurd ((failed_iff r).mp hfr) hr
      rw [if_neg hr] at hs
      simp only [Option.some.injEq] at hs
      subst hs
      exact { h with
        summaryOk := fun x hx => by simp [hsum] at hx
        tallyTotal := by simp; omega
        tallyErrs := by simp [List.countP_append, List.countP_cons, hf]; omega
        conserve := fun q => by
          have := hcons q
          simp [hch, List.countP_append, List.countP_cons] at *; omega }

theorem inv_step {ws0 : List (List Event)} {s s1 : Pool} {a : Action}
    (h : Inv ws0 s) (hs : step s a = some s1) : Inv ws0 s1 := by
  unfold step at hs
  by_cases hhalt : s.crashed = true ∨ s.summary ≠ none
  · simp [hhalt] at hs
  · rw [if_neg hhalt] at hs
    have hsum : s.summary = none := by
      by_contra hne
      exact hhalt (Or.inr hne)
    cases a with
    | worker j => exact inv_stepWorker h hs
    | closer => exact inv_stepCloser h hs
    | aggregator => exact inv_stepAggregator h hsum hs

theorem inv_exec {ws0 : List (List Event)} :
    ∀ (sched : List Action) (s s1 : Pool), Inv ws0 s → exec s sched = some s1 → Inv ws0 s1 := by
  intro sched
  induction sched with
  | nil =>
    intro s s1 h hs
    simp only [exec, Option.some.injEq] at hs
    exact hs ▸ h
  | cons a rest ih =>
    intro s s1 h hs
    simp only [exec] at hs
    cases hst : step s a with
    | none => simp [hst] at hs
    | some s2 =>
      rw [hst] at hs
      exact ih s2 s1 (inv_step h hst) hs

/-! ## The pool: every run ends -/

theorem fuel_stepWorker {s s1 : Pool} {j : Nat} (hcr : s.crashed = false)
    (hs : stepWorker s j = some s1) : fuel s1 < fuel s := by
  unfold stepWorker at hs
  cases hg : s.workers[j]? with
  | none => simp [hg] at hs
  | some t =>
    cases t with
    | nil => simp [hg] at hs
    | cons ev rest =>
      have hlen : sumOver List.length (s.workers.set j rest) + (rest.length + 1)
          = sumOver List.length s.workers + rest.length :=
        sumOver_set List.length s.workers j (ev :: rest) rest hg
      rw [hg] at hs
      cases ev with
      | newClient =>
        simp only [Option.some.injEq] at hs
        subst hs
        simp only [fuel]
        omega
      | call i =>
        simp only [Option.some.injEq] at hs
        subst hs
        simp only [fuel]
        omega
      | send r =>
        dsimp only at hs
        by_cases hc : s.closed = true
        · rw [if_pos hc] at hs
          simp only [Option.some.injEq] at hs
          subst hs
          simp [fuel, hcr]
        · rw [if_neg hc] at hs
          by_cases hcap : s.errCh.length < errChCap
          · rw [if_pos hcap] at hs
            simp only [Option.some.injEq] at hs
            subst hs
            simp only [fuel, List.length_append, List.length_singleton]
            omega
          · simp [hcap] at hs
      | done =>
        dsimp only at hs
        by_cases hwg : s.wg = 0
        · rw [if_pos hwg] at hs
          simp only [Option.some.injEq] at hs
          subst hs
          simp [fuel, hcr]
        · rw [if_neg hwg] at hs
          simp only [Option.some.injEq] at hs
          subst hs
          simp only [fuel]
          omega

theorem fuel_stepCloser {s s1 : Pool} (hcr : s.crashed = false)
    (hs : stepCloser s = some s1) : fuel s1 < fuel s := by
  unfold stepCloser at hs
  cases hc : s.closer with
  | waiting =>
    rw [hc] at hs
    dsimp only at hs
    by_cases hwg : s.wg = 0
    · rw [if_pos hwg] at hs
      simp only [Option.some.injEq] at hs
      subst hs
      simp [fuel, hc, CloserPc.left]
    · simp [hwg] at hs
  | closing =>
    rw [hc] at hs
    dsimp only at hs
    by_cases hcl : s.closed = true
    · rw [if_pos hcl] at hs
      simp only [Option.some.injEq] at hs
      subst hs
      simp [fuel, hcr, hc]
    · rw [if_neg hcl] at hs
      simp only [Option.some.injEq] at hs
      subst hs
      simp [fuel, hc, CloserPc.left]
  | exited =>
    rw [hc] at hs
    simp at hs

theorem fuel_stepAggregator {s s1 : Pool} (hsum : s.summary = none)
    (hs : stepAggregator s = some s1) : fuel s1 < fuel s := by
  cases hch : s.errCh with
  | nil =>
    rw [stepAggregator_nil hch] at hs
    by_cases hcl : s.closed = true
    · rw [if_pos hcl] at hs
      simp only [Option.some.injEq] at hs
      subst hs
      simp [fuel, hsum]
    · simp [hcl] at hs
  | cons r rest =>
    rw [stepAggregator_cons hch] at hs
    by_cases hr : r.err ≠ none
    · rw [if_pos hr] at hs
      simp only [Option.some.injEq] at hs
      subst hs
      simp [fuel, hch]
    · rw [if_neg hr] at hs
      simp only [Option.some.injEq] at hs
      subst hs
      simp [fuel, hch]

theorem fuel_step {s s1 : Pool} {a : Action} (hs : step s a = some s1) :
    fuel s1 < fuel s := by
  unfold step at hs
  by_cases hhalt : s.crashed = true ∨ s.summary ≠ none
  · simp [hhalt] at hs
  · rw [if_neg hhalt] at hs
    have hsum : s.summary = none := by
      by_contra hne
      exact hhalt (Or.inr hne)
    have hcr : s.crashed = false := by
      cases hc : s.crashed with
      | false => rfl
      | true => exact absurd (Or.inl hc) hhalt
    cases a with
    | worker j => exact fuel_stepWorker hcr hs
    | closer => exact fuel_stepCloser hcr hs
    | aggregator => exact fuel_stepAggregator hsum hs

theorem fuel_exec :
    ∀ (sched : List Action) (s s1 : Pool), exec s sched = some s1 →
      sched.length + fuel s1 ≤ fuel s := by
  intro sched
  induction sched with
  | nil =>
    intro s s1 hs
    simp only [exec, Option.some.injEq] at hs
    subst hs
    simp
  | cons a rest ih =>
    intro s s1 hs
    simp only [exec] at hs
    cases hst : step s a with
    | none => simp [hst] at hs
    | some s2 =>
      rw [hst] at hs
      have h1 := ih s2 s1 hs
      have h2 := fuel_step hst
      simp only [List.length_cons]
      omega

theorem exists_step_of_not_stuck {s : Pool} (h : stuck s = false) :
    ∃ a s1, step s a = some s1 := by
  unfold stuck at h
  have h2 : ¬ ((actions s).all fun a => (step s a).isNone) = true := by simp [h]
  rw [List.all_eq_true] at h2
  push_neg at h2
  obtain ⟨a, _, ha⟩ := h2
  cases hst : step s a with
  | none => simp [hst] at ha
  | some s1 => exact ⟨a, s1, hst⟩

theorem exists_complete_run :
    ∀ (n : Nat) (s : Pool), fuel s ≤ n → ∃ sched s1, exec s sched = some s1 ∧ stuck s1 = true := by
  intro n
  induction n with
  | zero =>
    intro s hs
    cases hst : stuck s with
    | true => exact ⟨[], s, rfl, hst⟩
    | false =>
      obtain ⟨a, s1, h1⟩ := exists_step_of_not_stuck hst
      have := fuel_step h1
      omega
  | succ n ih =>
    intro s hs
    cases hst : stuck s with
    | true => exact ⟨[], s, rfl, hst⟩
    | false =>
      obtain ⟨a, s1, h1⟩ := exists_step_of_not_stuck hst
      have hlt := fuel_step h1
      obtain ⟨sched, s2, h2, h3⟩ := ih s1 (by omega)
      refine ⟨a :: sched, s2, ?_, h3⟩
      simp only [exec, h1]
      exact h2

/-! ## The pool: where a run can end -/

theorem step_none_of_stuck {s : Pool} (h : stuck s = true) :
    step s .closer = none ∧ step s .aggregator = none ∧
      ∀ j, j < s.workers.length → step s (.worker j) = none := by
  unfold stuck at h
  rw [List.all_eq_true] at h
  refine ⟨?_, ?_, ?_⟩
  · have := h .closer (by simp [actions])
    simpa using this
  · have := h .aggregator (by simp [actions])
    simpa using this
  · intro j hj
    have := h (.worker j) (by simp [actions, hj])
    simpa using this

theorem summary_of_stuck {ws0 : List (List Event)} {s : Pool} (h : Inv ws0 s)
    (hst : stuck s = true) : s.summary ≠ none := by
  intro hsum
  obtain ⟨hc, ha, hw⟩ := step_none_of_stuck hst
  have hhalt : ¬ (s.crashed = true ∨ s.summary ≠ none) := by
    simp [h.notCrashed, hsum]
  simp only [step, if_neg hhalt] at hc ha hw
  -- the loop over `errCh` cannot move: the buffer is empty and `errCh` is open
  have hch : s.errCh = [] := by
    cases hch : s.errCh with
    | nil => rfl
    | cons r rest =>
      rw [stepAggregator_cons hch] at ha
      by_cases hr : r.err ≠ none
      · rw [if_pos hr] at ha; simp at ha
      · rw [if_neg hr] at ha; simp at ha
  have hopen : s.closed = false := by
    cases hcl : s.closed with
    | false => rfl
    | true =>
      rw [stepAggregator_nil hch, if_pos hcl] at ha
      simp at ha
  -- the closing goroutine cannot move: it waits on a counter that is not zero
  have hwg : s.wg ≠ 0 := by
    intro hwg
    unfold stepCloser at hc
    cases hcl : s.closer with
    | waiting => rw [hcl] at hc; simp [hwg] at hc
    | closing => rw [hcl] at hc; simp [hopen] at hc
    | exited =>
      have := (h.closerExited hcl).1
      rw [hopen] at this
      exact Bool.noConfusion this
  -- so some worker has effects left, and its next one can be performed
  have hex : ∃ t ∈ s.workers, t ≠ [] := by
    by_contra hall
    push_neg at hall
    have := sumOver_zero_of_all_nil (fun t => t.countP Event.isDone) rfl hall
    have hw0 := h.wgCount
    unfold pendingDones at hw0
    omega
  obtain ⟨t, ht, hne⟩ := hex
  obtain ⟨j, hj⟩ := List.getElem?_of_mem ht
  have hjlt : j < s.workers.length := by
    by_contra hge
    have : s.workers[j]? = none := List.getElem?_eq_none (by omega)
    rw [this] at hj
    exact Option.noConfusion hj
  have hwj := hw j hjlt
  unfold stepWorker at hwj
  rw [hj] at hwj
  cases t with
  | nil => exact hne rfl
  | cons ev rest =>
    cases ev with
    | newClient => simp at hwj
    | call i => simp at hwj
    | send r => simp [hopen, hch, errChCap] at hwj
    | done => simp [hwg] at hwj

/-! ## The pool that `main` starts -/

theorem int32_small (W : Nat) (hW : W < 2147483648) : int32 (W : Int) = W := by
  unfold int32
  omega

theorem int64_succ_small (W : Nat) (hW : W < 2147483648) :
    int64 ((W : Int) + 1) = (W : Int) + 1 := by
  unfold int64
  omega

theorem main_pool {env : MainEnv} {W N : Nat} {M : Int} {s0 : Pool}
    (hW : W < 2147483648) (h : main env W M N = .pool s0) :
    s0 = dispatching (spawn env.worker N M 1 W) W ∧ ¬ (0 < W ∧ M = 0) := by
  unfold main at h
  rw [int32_small W hW, int64_succ_small W hW] at h
  have e1 : ((W : Int) + 1 - 1).toNat = W := by omega
  have e2 : ((W : Int)).toNat = W := by omega
  rw [e1, e2] at h
  split at h
  · exact Startup.noConfusion h
  · split at h
    · exact Startup.noConfusion h
    · split at h
      · exact Startup.noConfusion h
      · split at h
        · exact Startup.noConfusion h
        · split at h
          · exact Startup.noConfusion h
          · split at h
            · exact Startup.noConfusion h
            · rename_i hne
              injection h with h
              refine ⟨h.symm, ?_⟩
              intro hc
              exact hne ⟨by omega, hc.2⟩

theorem main_wg_panic (env : MainEnv) (W : Int) (M : Int) (N : Nat)
    (h32 : int32 W < 0) : ∀ s0, main env W M N ≠ .pool s0 := by
  intro s0 h
  unfold main at h
  split at h
  · exact Startup.noConfusion h
  · split at h
    · exact Startup.noConfusion h
    · split at h
      · exact Startup.noConfusion h
      · split at h
        · exact Startup.noConfusion h
        · rw [if_pos h32] at h
          exact Startup.noConfusion h

theorem countP_isDone_runLoop (env : WorkerEnv) (param : String) :
    ∀ (n i : Nat), (runLoop env param i n).countP Event.isDone = 0 := by
  intro n
  induction n with
  | zero => intro i; simp [runLoop]
  | succ n ih =>
    intro i
    simp only [runLoop]
    cases env.cancelled i <;> simp [Event.isDone, ih]

theorem run_shape (env : WorkerEnv) (N : Nat) (p : String) :
    (run env N p).getLast? = some .done := by
  unfold run
  exact List.getLast?_concat _

theorem run_dones (env : WorkerEnv) (N : Nat) (p : String) :
    (run env N p).countP Event.isDone = 1 := by
  unfold run
  cases env.clientErr with
  | none => simp [List.countP_append, List.countP_cons, Event.isDone, countP_isDone_runLoop]
  | some e => simp [List.countP_append, List.countP_cons, Event.isDone]

theorem sumOver_spawn (f : List Event → Nat) (env : Nat → WorkerEnv) (N : Nat) (M : Int) :
    ∀ (left i : Nat), sumOver f (spawn env N M i left)
      = ((List.range' i left).map fun k => f (run (env k) N (workerParam k M))).sum := by
  intro left
  induction left with
  | zero => intro i; simp [spawn, sumOver]
  | succ left ih =>
    intro i
    have := ih (i + 1)
    simp only [sumOver] at this
    simp [spawn, sumOver, List.range'_succ, this]

theorem spawn_mem (env : Nat → WorkerEnv) (N : Nat) (M : Int) :
    ∀ (left i : Nat) (t : List Event), t ∈ spawn env N M i left →
      ∃ k, i ≤ k ∧ k < i + left ∧ t = run (env k) N (workerParam k M) := by
  intro left
  induction left with
  | zero => intro i t ht; simp [spawn] at ht
  | succ left ih =>
    intro i t ht
    simp only [spawn, List.mem_cons] at ht
    rcases ht with h | h
    · exact ⟨i, le_refl i, by omega, h⟩
    · obtain ⟨k, h1, h2, h3⟩ := ih (i + 1) t h
      exact ⟨k, by omega, by omega, h3⟩

theorem spawn_length (env : Nat → WorkerEnv) (N : Nat) (M : Int) :
    ∀ (left i : Nat), (spawn env N M i left).length = left := by
  intro left
  induction left with
  | zero => intro i; simp [spawn]
  | succ left ih => intro i; simp [spawn, ih]

theorem spawn_get (env : Nat → WorkerEnv) (N : Nat) (M : Int) :
    ∀ (left i j : Nat), j < left →
      (spawn env N M i left)[j]? = some (run (env (i + j)) N (workerParam (i + j) M)) := by
  intro left
  induction left with
  | zero => intro i j hj; omega
  | succ left ih =>
    intro i j hj
    cases j with
    | zero => simp [spawn]
    | succ j =>
      simp only [spawn, List.getElem?_cons_succ]
      rw [ih (i + 1) j (by omega)]
      have e : i + 1 + j = i + (j + 1) := by omega
      rw [e]

theorem sum_const_range' (g : Nat → Nat) (c : Nat) :
    ∀ (left i : Nat), (∀ k, i ≤ k → k < i + left → g k = c) →
      ((List.range' i left).map g).sum = left * c := by
  intro left
  induction left with
  | zero => intro i _; simp
  | succ left ih =>
    intro i h
    have h1 := ih (i + 1) (fun k hk1 hk2 => h k (by omega) (by omega))
    have h2 := h i (le_refl i) (by omega)
    simp only [List.range'_succ, List.map_cons, List.sum_cons, h1, h2]
    rw [Nat.succ_mul]
    omega

theorem sum_bounds_range' (g : Nat → Nat) (lo hi : Nat) :
    ∀ (left i : Nat), (∀ k, i ≤ k → k < i + left → lo ≤ g k ∧ g k ≤ hi) →
      left * lo ≤ ((List.range' i left).map g).sum ∧
        ((List.range' i left).map g).sum ≤ left * hi := by
  intro left
  induction left with
  | zero => intro i _; simp
  | succ left ih =>
    intro i h
    have h1 := ih (i + 1) (fun k hk1 hk2 => h k (by omega) (by omega))
    have h2 := h i (le_refl i) (by omega)
    simp only [List.range'_succ, List.map_cons, List.sum_cons]
    rw [Nat.succ_mul, Nat.succ_mul]
    omega

theorem sum_congr_range' (g1 g2 : Nat → Nat) :
    ∀ (left i : Nat), (∀ k, i ≤ k → k < i + left → g1 k = g2 k) →
      ((List.range' i left).map g1).sum = ((List.range' i left).map g2).sum := by
  intro left
  induction left with
  | zero => intro i _; simp
  | succ left ih =>
    intro i h
    have h1 := ih (i + 1) (fun k hk1 hk2 => h k (by omega) (by omega))
    have h2 := h i (le_refl i) (by omega)
    simp only [List.range'_succ, List.map_cons, List.sum_cons, h1, h2]

theorem inv_dispatching (env : Nat → WorkerEnv) (W N : Nat) (M : Int) :
    Inv (spawn env N M 1 W) (dispatching (spawn env N M 1 W) W) where
  notCrashed := rfl
  shape := fun t ht => by
    obtain ⟨k, _, _, rfl⟩ := spawn_mem env N M W 1 t ht
    exact Or.inr (run_shape _ _ _)
  wgCount := by
    simp only [dispatching, pendingDones]
    rw [sumOver_spawn, sum_const_range' _ 1 W 1 (fun k _ _ => run_dones _ _ _)]
    omega
  closerWaiting := fun _ => ⟨rfl, rfl⟩
  closerClosing := fun h => by simp [dispatching] at h
  closerExited := fun h => by simp [dispatching] at h
  summaryOk := fun x h => by simp [dispatching] at h
  tallyTotal := rfl
  tallyErrs := rfl
  conserve := fun q => by simp [dispatching]
  size := rfl

/-- Where a run of a pool ends: `main` has printed the last log line, with
the numbers of results sent; `errCh` has been closed once; every worker has
performed all its effects. -/
theorem final_state {ws0 : List (List Event)} {s : Pool} (h : Inv ws0 s)
    (hst : stuck s = true) :
    s.summary = some (pendingSends (fun _ => true) ws0, pendingSends result.failed ws0) ∧
    s.received.length = pendingSends (fun _ => true) ws0 ∧
    s.oks + s.errs = pendingSends (fun _ => true) ws0 ∧
    s.errs = pendingSends result.failed ws0 ∧
    s.closes = 1 ∧ (∀ t ∈ s.workers, t = []) := by
  have hsum := summary_of_stuck h hst
  cases hx : s.summary with
  | none => exact absurd hx hsum
  | some x =>
    obtain ⟨hcl, hch, hxe⟩ := h.summaryOk x hx
    have hex : s.closer = .exited := by
      cases hc : s.closer with
      | waiting =>
        have := (h.closerWaiting hc).1
        rw [hcl] at this
        exact Bool.noConfusion this
      | closing =>
        have := (h.closerClosing hc).1
        rw [hcl] at this
        exact Bool.noConfusion this
      | exited => rfl
    obtain ⟨_, hcloses, hwg⟩ := h.closerExited hex
    have hnil : ∀ t ∈ s.workers, t = [] :=
      all_nil_of_no_dones h.shape (by rw [← h.wgCount]; exact hwg)
    have hzero : ∀ q : result → Bool, pendingSends q s.workers = 0 := fun q =>
      sumOver_zero_of_all_nil (fun t => (sendsOf t).countP q) rfl hnil
    have hlen : s.received.length = pendingSends (fun _ => true) ws0 := by
      have := h.conserve (fun _ => true)
      rw [hch, hzero] at this
      simpa using this
    have herr : s.errs = pendingSends result.failed ws0 := by
      have := h.conserve result.failed
      rw [hch, hzero] at this
      rw [h.tallyErrs]
      simpa using this
    have htot : s.oks + s.errs = pendingSends (fun _ => true) ws0 := by
      rw [h.tallyTotal, hlen]
    refine ⟨?_, hlen, htot, herr, hcloses, hnil⟩
    rw [hxe, htot, herr]

/-! ## The pool: what the summary reports -/

theorem sends_total_spawn (env : Nat → WorkerEnv) (W N : Nat) (M : Int)
    (hclient : ∀ i, 1 ≤ i → i ≤ W → (env i).clientErr = none)
    (hctx : ∀ i k, 1 ≤ i → i ≤ W → k < N → (env i).cancelled k = false) :
    pendingSends (fun _ => true) (spawn env N M 1 W) = W * N ∧
    pendingSends result.failed (spawn env N M 1 W) = failedCalls env W N := by
  have hrun : ∀ i, 1 ≤ i → i < 1 + W → ∀ p,
      sendsOf (run (env i) N p)
        = (List.range N).map fun k => { i := k, p := p, err := (env i).backupErr k } := by
    intro i h1 h2 p
    exact sendsOf_run (env i) N N p
      (run_iterations (env i) N N p (hclient i h1 (by omega)) (le_refl N)
        (fun k hk => hctx i k h1 (by omega) (by omega)) (fun h => absurd h (lt_irrefl N)))
  constructor
  · simp only [pendingSends]
    rw [sumOver_spawn]
    apply sum_const_range'
    intro i h1 h2
    rw [hrun i h1 h2]
    simp
  · simp only [pendingSends, failedCalls]
    rw [sumOver_spawn]
    apply sum_congr_range'
    intro i h1 h2
    rw [hrun i h1 h2, List.countP_map]
    rfl

/-- C1, as stated, fails: with `2^31` workers, every client built, nothing
cancelled, `wg.Add` panics on the negative 32-bit counter before any worker
is started, so no pool runs and no result is taken from `errCh`. -/
theorem pool_summary_counterexample :
    (∀ i, (sampleEnv.worker i).clientErr = none) ∧
    (∀ i k, (sampleEnv.worker i).cancelled k = false) ∧
    main sampleEnv 2147483648 3 1 = .crash "sync: negative WaitGroup counter" ∧
    ¬ ∃ s0, main sampleEnv 2147483648 3 1 = .pool s0 :=
  ⟨fun _ => rfl, fun _ _ => rfl, by decide,
   fun ⟨s0, h⟩ => main_wg_panic sampleEnv 2147483648 3 1 (by decide) s0 h⟩

/-- C1, amended: in a pool of `W < 2^31` workers with `N` iterations each,
every client built and no cancellation seen, whatever the calls of `backup`
return and however the goroutines are scheduled: every run is finite, a
complete run exists, and at the end of every complete run `main` has taken
`W * N` results from `errCh` and reports `W * N` done with as many errors as
calls of `backup` failed. -/
theorem pool_summary (env : MainEnv) (W N : Nat) (M : Int) (s0 : Pool)
    (hW : W < 2147483648)
    (hstart : main env W M N = .pool s0)
    (hclient : ∀ i, 1 ≤ i → i ≤ W → (env.worker i).clientErr = none)
    (hctx : ∀ i k, 1 ≤ i → i ≤ W → k < N → (env.worker i).cancelled k = false) :
    (∀ sched s, exec s0 sched = some s → sched.length ≤ fuel s0) ∧
    (∃ sched s, exec s0 sched = some s ∧ stuck s = true) ∧
    (∀ sched s, exec s0 sched = some s → stuck s = true →
      s.received.length = W * N ∧
      s.oks + s.errs = W * N ∧
      s.errs = failedCalls env.worker W N ∧
      s.summary = some (W * N, failedCalls env.worker W N)) := by
  obtain ⟨hs0, _⟩ := main_pool hW hstart
  subst hs0
  obtain ⟨htot, herr⟩ := sends_total_spawn env.worker W N M hclient hctx
  refine ⟨?_, ?_, ?_⟩
  · intro sched s hs
    have := fuel_exec sched _ s hs
    omega
  · exact exists_complete_run _ _ (le_refl _)
  · intro sched s hs hst
    have hinv := inv_exec sched _ s (inv_dispatching env.worker W N M) hs
    obtain ⟨h1, h2, h3, h4, _, _⟩ := final_state hinv hst
    rw [htot] at h1 h2 h3
    rw [herr] at h1 h4
    exact ⟨h2, h3, h4, h1⟩

/-- Two workers, one iteration each, the call of the second failing: the
run of `sampleSchedule` ends with `2 done`, `1 errors`. -/
theorem pool_summary_witness :
    exec samplePool sampleSchedule = some sampleFinal ∧
    sampleFinal.summary = some (2, 1) :=
  ⟨by decide,
   ((pool_summary sampleEnv 2 1 3 samplePool (by decide) rfl (fun _ _ _ => rfl)
      (fun _ _ _ _ _ => rfl)).2.2 sampleSchedule sampleFinal (by decide) (by decide)).2.2.2⟩

/-! ## Cancellation seen by the worker -/

theorem sends_runLoop_bounds (env : WorkerEnv) (param : String) :
    ∀ (n i : Nat), (sendsOf (runLoop env param i n)).length ≤ n ∧
      (0 < n → 1 ≤ (sendsOf (runLoop env param i n)).length) := by
  intro n
  induction n with
  | zero => intro i; simp [runLoop, sendsOf]
  | succ n ih =>
    intro i
    have h := (ih (i + 1)).1
    simp only [sendsOf] at h
    simp only [runLoop]
    cases env.cancelled i with
    | true => simp [sendsOf]
    | false =>
      simp [sendsOf]
      exact h

theorem sends_run_bounds (env : WorkerEnv) (N : Nat) (p : String)
    (hclient : env.clientErr = none) (hN : 1 ≤ N) :
    1 ≤ (sendsOf (run env N p)).length ∧ (sendsOf (run env N p)).length ≤ N := by
  have h := sends_runLoop_bounds env p N 0
  have e : sendsOf (run env N p) = sendsOf (runLoop env p 0 N) := by
    rw [run_of_runLoop env N p hclient]
    simp [sendsOf]
  rw [e]
  exact ⟨h.2 (by omega), h.1⟩

/-- C5, as stated, fails: with `2^31` workers of three iterations, every
client built, `wg.Add` panics before any worker is started; no pool runs, so
`main` takes no result at all, not between `W` and `W * N` of them. -/
theorem cancellation_stops_counterexample :
    (∀ i, (cancelEnv.worker i).clientErr = none) ∧
    main cancelEnv 2147483648 3 3 = .crash "sync: negative WaitGroup counter" ∧
    ¬ ∃ s0, main cancelEnv 2147483648 3 3 = .pool s0 :=
  ⟨fun _ => rfl, by decide,
   fun ⟨s0, h⟩ => main_wg_panic cancelEnv 2147483648 3 3 (by decide) s0 h⟩

/-- C5, amended: a worker whose client is built checks the token after each send.  If
the check that ends iteration number `m` (counted from 1) is the first to see
the token signaled, or `m = N` and no check before the last sees it, the
worker makes the calls `0, .., m - 1` of `backup`, sends their `m` results and
starts no further iteration.  So a worker with `N >= 1` sends between 1 and `N`
results, and at the end of every complete run of `W < 2^31` such workers
`main` has taken between `W` and `W * N` results. -/
theorem cancellation_stops (env : MainEnv) (W N : Nat) (M : Int) (s0 : Pool)
    (hN : 1 ≤ N) (hW : W < 2147483648) (hstart : main env W M N = .pool s0)
    (hclient : ∀ i, 1 ≤ i → i ≤ W → (env.worker i).clientErr = none) :
    (∀ i m p, 1 ≤ i → i ≤ W → 1 ≤ m → m ≤ N →
      (∀ k, k + 1 < m → (env.worker i).cancelled k = false) →
      (m < N → (env.worker i).cancelled (m - 1) = true) →
      run (env.worker i) N p
        = .newClient ::
            ((List.range m).flatMap fun k =>
              [.call k, .send { i := k, p := p, err := (env.worker i).backupErr k }])
            ++ [.done] ∧
      callsOf (run (env.worker i) N p) = List.range m ∧
      sendsOf (run (env.worker i) N p)
        = (List.range m).map fun k =>
            { i := k, p := p, err := (env.worker i).backupErr k }) ∧
    (∀ i p, 1 ≤ i → i ≤ W →
      1 ≤ (sendsOf (run (env.worker i) N p)).length ∧
      (sendsOf (run (env.worker i) N p)).length ≤ N) ∧
    (∀ sched s, exec s0 sched = some s → stuck s = true →
      s.summary = some (s.received.length, s.errs) ∧
      W ≤ s.received.length ∧ s.received.length ≤ W * N) := by
  obtain ⟨hs0, _⟩ := main_pool hW hstart
  subst hs0
  refine ⟨?_, ?_, ?_⟩
  · intro i m p h1 h2 hm1 hmN hgo hstop
    have hrun := run_iterations (env.worker i) N m p (hclient i h1 h2) hmN hgo
      (fun h => ⟨by omega, hstop h⟩)
    refine ⟨?_, callsOf_run _ N m p hrun, sendsOf_run _ N m p hrun⟩
    rw [hrun, List.range_eq_range']
    rfl
  · intro i p h1 h2
    exact sends_run_bounds _ N p (hclient i h1 h2) hN
  · intro sched s hs hst
    have hinv := inv_exec sched _ s (inv_dispatching env.worker W N M) hs
    obtain ⟨hsum, hlen, _, herr, _, _⟩ := final_state hinv hst
    have hb := sum_bounds_range'
      (fun k => (sendsOf (run (env.worker k) N (workerParam k M))).countP fun _ => true)
      1 N W 1
      (fun k hk1 hk2 => by
        have := sends_run_bounds (env.worker k) N (workerParam k M)
          (hclient k hk1 (by omega)) hN
        simpa using this)
    have htot : pendingSends (fun _ => true) (spawn env.worker N M 1 W)
        = ((List.range' 1 W).map fun k =>
            (sendsOf (run (env.worker k) N (workerParam k M))).countP fun _ => true).sum := by
      simp only [pendingSends]
      rw [sumOver_spawn]
    rw [← htot, ← hlen] at hb
    refine ⟨?_, by omega, hb.2⟩
    rw [hsum, hlen, herr]

/-- One worker with three iterations sees the token at the check that ends
its second iteration: two calls, two results, and `main` reports `2 done`. -/
theorem cancellation_stops_witness :
    sendsOf (run (cancelEnv.worker 1) 3 "1")
      = [{ i := 0, p := "1", err := none }, { i := 1, p := "1", err := some .canceled }] ∧
    (cancelFinal.summary = some (cancelFinal.received.length, cancelFinal.errs) ∧
      1 ≤ cancelFinal.received.length ∧ cancelFinal.received.length ≤ 1 * 3) :=
  ⟨((cancellation_stops cancelEnv 1 3 3 cancelPool (by decide) (by decide) rfl
      (fun _ _ _ => rfl)).1
      1 2 "1" (by decide) (by decide) (by decide) (by decide)
      (fun k hk => by
        have : k = 0 := by omega
        subst this
        rfl)
      (fun _ => rfl)).2.2,
   (cancellation_stops cancelEnv 1 3 3 cancelPool (by decide) (by decide) rfl
      (fun _ _ _ => rfl)).2.2
      cancelSchedule cancelFinal (by decide) (by decide)⟩

/-! ## Closing `errCh` -/

/-- C6, as stated, fails: with `2^31` workers `wg.Add` panics before the
workers and the closing goroutine are started; no pool runs and `errCh` is
never closed. -/
theorem close_once_counterexample :
    main sampleEnv 2147483648 3 10 = .crash "sync: negative WaitGroup counter" ∧
    ¬ ∃ s0, main sampleEnv 2147483648 3 10 = .pool s0 :=
  ⟨by decide, fun ⟨s0, h⟩ => main_wg_panic sampleEnv 2147483648 3 10 (by decide) s0 h⟩

/-- C6, amended: with `W < 2^31` workers, in every state a run of the pool
reaches, no goroutine has panicked
(so `errCh` was not closed twice and nothing was sent on it once closed),
`close(errCh)` has run at most once, `errCh` is closed exactly when it has run,
and when it has run, or is about to, all `W` workers have called `done()`;
at the end of every complete run it has run once; and every run is finite and
can be completed. -/
theorem close_once (env : MainEnv) (W N : Nat) (M : Int) (s0 : Pool)
    (hW : W < 2147483648)
    (hstart : main env W M N = .pool s0) (sched : List Action) (s : Pool)
    (hrun : exec s0 sched = some s) :
    s.crashed = false ∧ s.closes ≤ 1 ∧ (s.closed = true ↔ s.closes = 1) ∧
    (s.closes = 1 ∨ s.closer = .closing →
      s.wg = 0 ∧ s.workers.length = W ∧ ∀ t ∈ s.workers, t = []) ∧
    (stuck s = true → s.closes = 1) ∧
    sched.length ≤ fuel s0 ∧
    (∃ more s1, exec s more = some s1 ∧ stuck s1 = true ∧ s1.closes = 1) := by
  obtain ⟨hs0, _⟩ := main_pool hW hstart
  subst hs0
  have hinv := inv_exec sched _ s (inv_dispatching env.worker W N M) hrun
  have hlen : s.workers.length = W := by
    rw [hinv.size, spawn_length]
  have hdone : s.wg = 0 → ∀ t ∈ s.workers, t = [] := fun hwg =>
    all_nil_of_no_dones hinv.shape (by rw [← hinv.wgCount]; exact hwg)
  refine ⟨hinv.notCrashed, ?_, ?_, ?_, ?_, ?_, ?_⟩
  · cases hc : s.closer with
    | waiting => rw [(hinv.closerWaiting hc).2]; omega
    | closing => rw [(hinv.closerClosing hc).2.1]; omega
    | exited => rw [(hinv.closerExited hc).2.1]
  · cases hc : s.closer with
    | waiting => simp [(hinv.closerWaiting hc).1, (hinv.closerWaiting hc).2]
    | closing => simp [(hinv.closerClosing hc).1, (hinv.closerClosing hc).2.1]
    | exited => simp [(hinv.closerExited hc).1, (hinv.closerExited hc).2.1]
  · intro h
    have hwg : s.wg = 0 := by
      cases hc : s.closer with
      | waiting =>
        rcases h with h | h
        · rw [(hinv.closerWaiting hc).2] at h
          exact absurd h (by decide)
        · rw [hc] at h
          exact CloserPc.noConfusion h
      | closing => exact (hinv.closerClosing hc).2.2
      | exited => exact (hinv.closerExited hc).2.2
    exact ⟨hwg, hlen, hdone hwg⟩
  · intro hst
    exact (final_state hinv hst).2.2.2.2.1
  · have := fuel_exec sched _ s hrun
    omega
  · obtain ⟨more, s1, h1, h2⟩ := exists_complete_run (fuel s) s (le_refl _)
    exact ⟨more, s1, h1, h2, (final_state (inv_exec more s s1 hinv h1) h2).2.2.2.2.1⟩

/-- Under `sampleSchedule` the two workers have called `done()` when the
closing goroutine is past `wg.Wait()`, and `errCh` is closed once at the end. -/
theorem close_once_witness :
    (sampleFinal.crashed = false ∧ sampleFinal.closes ≤ 1 ∧
      (sampleFinal.closed = true ↔ sampleFinal.closes = 1) ∧
      (sampleFinal.closes = 1 ∨ sampleFinal.closer = .closing →
        sampleFinal.wg = 0 ∧ sampleFinal.workers.length = 2 ∧
          ∀ t ∈ sampleFinal.workers, t = []) ∧
      (stuck sampleFinal = true → sampleFinal.closes = 1)) :=
  have h := close_once sampleEnv 2 1 3 samplePool (by decide) rfl sampleSchedule sampleFinal
    (by decide)
  ⟨h.1, h.2.1, h.2.2.1, h.2.2.2.1, h.2.2.2.2.1⟩

/-! ## The completion signal of a worker -/

/-- C7: on every path through `run` (the client is not built, the loop is
left early, the loop runs to its end; whatever `backup` returns) the effects
of the worker end with `done()`, which occurs once; every send comes before
it. -/
theorem worker_signals_once (env : WorkerEnv) (N : Nat) (p : String) :
    (run env N p).countP Event.isDone = 1 ∧
    (run env N p).getLast? = some .done ∧
    ∃ body, run env N p = body ++ [.done] ∧ body.countP Event.isDone = 0 ∧
      sendsOf body = sendsOf (run env N p) := by
  refine ⟨run_dones env N p, run_shape env N p, ?_⟩
  have h1 := run_dones env N p
  unfold run at h1 ⊢
  refine ⟨_, rfl, ?_, ?_⟩
  · rw [List.countP_append] at h1
    simpa [Event.isDone] using h1
  · simp [sendsOf]

/-! ## A client that cannot be built -/

/-- C9, as stated, fails: the client of a worker cannot be built; the run
goes on, `main` takes from `errCh` a result that carries the error of the
construction, and reports `1 done` with `1 errors`. -/
theorem init_error_counterexample :
    main initFailEnv 1 3 2 = .pool initFailPool ∧
    exec initFailPool initFailSchedule = some initFailFinal ∧
    stuck initFailFinal = true ∧
    initFailFinal.received
      = [{ i := 0, p := "<init>", err := (initFailEnv.worker 1).clientErr }] ∧
    (initFailEnv.worker 1).clientErr = some (.other "invalid address") ∧
    initFailFinal.summary = some (1, 1) := by
  decide

/-- C9, amended: when the client of `main` cannot be built, `main` writes the
error and exits with code 1, and no pool is started.  When the client of a
worker cannot be built, that worker calls `backup` not once, sends the one
result `(0, <init>, error)` and calls `done()`; the loop over `errCh` counts
that result as an error. -/
theorem init_error (env : MainEnv) (W : Int) (N : Nat) (M : Int) (e : GoError) :
    (env.newClient = some e →
      main env W M N = .exit 1 ("error creating client: " ++ e.Error ++ "\n")) ∧
    (∀ (w : WorkerEnv) (p : String), w.clientErr = some e →
      run w N p = [.newClient, .send { i := 0, p := "<init>", err := some e }, .done]) ∧
    (∀ (s : Pool) (rest : List result),
      s.errCh = { i := 0, p := "<init>", err := some e } :: rest →
      stepAggregator s
        = some { s with
            errCh := rest
            errs := s.errs + 1
            received := s.received ++ [{ i := 0, p := "<init>", err := some e }] }) := by
  refine ⟨?_, ?_, ?_⟩
  · intro h
    simp [main, h]
  · intro w p h
    simp [run, h]
  · intro s rest h
    rw [stepAggregator_cons h]
    simp

/-- The client of `main` cannot be built: exit code 1, whatever the counts. -/
theorem init_error_witness :
    main noClientEnv 50 3 10 = .exit 1 "error creating client: invalid address\n" :=
  (init_error noClientEnv 50 10 3 (.other "invalid address")).1 rfl

/-! ## The parameters of the workers -/

theorem workerParam_eq (i : Nat) (M : Int) (hM : 1 ≤ M) :
    workerParam i M = Itoa ((i : Int) % M) := by
  unfold workerParam
  rw [Int.tmod_eq_emod (Int.ofNat_nonneg i) (by omega)]

theorem digitValue_digitChar (d : Nat) (hd : d < 10) :
    digitValue (digitChar d) = some d := by
  interval_cases d <;> rfl

theorem valueFrom_append (xs ys : List Char) :
    ∀ a, valueFrom a (xs ++ ys) = (valueFrom a xs).bind fun v => valueFrom v ys := by
  induction xs with
  | nil => intro a; rfl
  | cons c cs ih =>
    intro a
    simp only [List.cons_append, valueFrom]
    cases digitValue c with
    | none => rfl
    | some d => exact ih (a * 10 + d)

theorem formatBits_digits :
    ∀ (bound u : Nat) (acc : List Char), u < bound →
      ∃ ds, ds ≠ [] ∧ formatBits bound u acc = ds ++ acc ∧
        ∀ a, valueFrom a ds = some (a * 10 ^ ds.length + u) := by
  intro bound
  induction bound with
  | zero => intro u acc h; omega
  | succ bound ih =>
    intro u acc h
    by_cases hu : u < 10
    · refine ⟨[digitChar u], List.cons_ne_nil _ _, ?_, ?_⟩
      · simp [formatBits, hu]
      · intro a
        simp [valueFrom, digitValue_digitChar u hu]
    · obtain ⟨ds, _, h2, h3⟩ := ih (u / 10) (digitChar (u % 10) :: acc) (by omega)
      refine ⟨ds ++ [digitChar (u % 10)], by simp, ?_, ?_⟩
      · simp [formatBits, hu, h2]
      · intro a
        rw [valueFrom_append, h3 a]
        simp only [Option.some_bind, valueFrom,
          digitValue_digitChar (u % 10) (Nat.mod_lt _ (by decide)),
          List.length_append, List.length_singleton, Option.some.injEq]
        rw [pow_succ]
        have := Nat.div_add_mod u 10
        nlinarith [this]

theorem decimalValue_Itoa (v : Nat) : decimalValue (Itoa (v : Int)) = some v := by
  obtain ⟨ds, h1, h2, h3⟩ := formatBits_digits (v + 1) v [] (by omega)
  have hn : ¬ ((v : Int) < 0) := by omega
  simp only [Itoa, if_neg hn, Int.toNat_ofNat, decimalValue, h2, List.append_nil]
  cases ds with
  | nil => exact absurd rfl h1
  | cons c cs =>
    have := h3 0
    simpa using this

theorem param_of_sends_runLoop (env : WorkerEnv) (param : String) :
    ∀ (n i : Nat) (r : result), r ∈ sendsOf (runLoop env param i n) → r.p = param := by
  intro n
  induction n with
  | zero => intro i r hr; simp [runLoop, sendsOf] at hr
  | succ n ih =>
    intro i r hr
    have h := ih (i + 1) r
    simp only [sendsOf] at h
    simp only [runLoop] at hr
    cases hc : env.cancelled i with
    | true =>
      simp [sendsOf, hc] at hr
      rw [hr]
    | false =>
      simp [sendsOf, hc] at hr
      rcases hr with hr | hr
      · rw [hr]
      · exact h (by simpa using hr)

theorem param_of_sends_run (env : WorkerEnv) (N : Nat) (param : String) (r : result)
    (hr : r ∈ sendsOf (run env N param)) :
    r.p = param ∨ (r.p = "<init>" ∧ env.clientErr ≠ none) := by
  cases hc : env.clientErr with
  | none =>
    left
    rw [run_of_runLoop env N param hc] at hr
    have h := param_of_sends_runLoop env param N 0 r
    simp only [sendsOf] at h
    apply h
    simpa [sendsOf] using hr
  | some e =>
    right
    simp [run, hc, sendsOf] at hr
    simp [hr]

theorem decimalValue_Itoa_nonneg (x : Int) (hx : 0 ≤ x) :
    decimalValue (Itoa x) = some x.toNat := by
  have h := decimalValue_Itoa x.toNat
  rwa [Int.toNat_of_nonneg hx] at h

theorem Itoa_injective_nonneg (u v : Int) (hu : 0 ≤ u) (hv : 0 ≤ v)
    (h : Itoa u = Itoa v) : u = v := by
  have h1 := decimalValue_Itoa_nonneg u hu
  have h2 := decimalValue_Itoa_nonneg v hv
  rw [h, h2] at h1
  have h3 : v.toNat = u.toNat := Option.some.inj h1
  omega

/-- C10, as stated, fails: with `max-sleep` 5 and `2^31` workers, `wg.Add`
panics before the loop that starts the workers; no worker is given a
parameter, so none of `0 .. 4` is the parameter of a worker. -/
theorem worker_params_counterexample :
    (1 : Int) ≤ 5 ∧ (5 : Int) ≤ 2147483648 ∧
    main sampleEnv 2147483648 5 10 = .crash "sync: negative WaitGroup counter" ∧
    ¬ ∃ s0, main sampleEnv 2147483648 5 10 = .pool s0 :=
  ⟨by decide, by decide, by decide,
   fun ⟨s0, h⟩ => main_wg_panic sampleEnv 2147483648 5 10 (by decide) s0 h⟩

/-- C10, amended: with `max-sleep` `M >= 1` and `W < 2^31` workers, worker
number `i` of `1 .. W` is started with the parameter `strconv.Itoa` of
`i mod M`; that number lies from `0` to `M - 1` and is the number the
parameter denotes in decimal; every result the worker sends carries that
parameter (but for the result sent when its client cannot be built); when
`W >= M` every number from `0` to `M - 1` is the number of some worker, whose
parameter denotes it; and different numbers have different parameters. -/
theorem worker_params (env : MainEnv) (W N : Nat) (M : Int) (s0 : Pool)
    (hM : 1 ≤ M) (hW : W < 2147483648) (hstart : main env W M N = .pool s0) :
    s0.workers.length = W ∧
    (∀ i, 1 ≤ i → i ≤ W →
      s0.workers[i - 1]? = some (run (env.worker i) N (Itoa ((i : Int) % M))) ∧
      0 ≤ (i : Int) % M ∧ (i : Int) % M ≤ M - 1 ∧
      decimalValue (Itoa ((i : Int) % M)) = some ((i : Int) % M).toNat ∧
      ∀ r ∈ sendsOf (run (env.worker i) N (Itoa ((i : Int) % M))),
        r.p = Itoa ((i : Int) % M) ∨ (r.p = "<init>" ∧ (env.worker i).clientErr ≠ none)) ∧
    (M ≤ (W : Int) → ∀ v : Int, 0 ≤ v → v ≤ M - 1 →
      ∃ i, 1 ≤ i ∧ i ≤ W ∧ (i : Int) % M = v ∧
        s0.workers[i - 1]? = some (run (env.worker i) N (Itoa v)) ∧
        decimalValue (Itoa v) = some v.toNat) ∧
    (∀ u v : Int, 0 ≤ u → 0 ≤ v → Itoa u = Itoa v → u = v) := by
  obtain ⟨hs0, _⟩ := main_pool hW hstart
  subst hs0
  have hget : ∀ i, 1 ≤ i → i ≤ W →
      (dispatching (spawn env.worker N M 1 W) W).workers[i - 1]?
        = some (run (env.worker i) N (Itoa ((i : Int) % M))) := by
    intro i h1 h2
    have h := spawn_get env.worker N M W 1 (i - 1) (by omega)
    have e : 1 + (i - 1) = i := by omega
    rw [e, workerParam_eq i M hM] at h
    exact h
  refine ⟨spawn_length _ _ _ _ _, ?_, ?_, Itoa_injective_nonneg⟩
  · intro i h1 h2
    have hnn : 0 ≤ (i : Int) % M := Int.emod_nonneg _ (by omega)
    refine ⟨hget i h1 h2, hnn, ?_, decimalValue_Itoa_nonneg _ hnn, ?_⟩
    · have := Int.emod_lt_of_pos (i : Int) (show (0 : Int) < M by omega)
      omega
    · intro r hr
      exact param_of_sends_run _ _ _ r hr
  · intro hWM v hv0 hvM
    by_cases hz : v = 0
    · have e : ((M.toNat : Nat) : Int) % M = v := by
        rw [Int.toNat_of_nonneg (by omega), Int.emod_self, hz]
      refine ⟨M.toNat, by omega, by omega, e, ?_, decimalValue_Itoa_nonneg v hv0⟩
      have h := hget M.toNat (by omega) (by omega)
      rw [e] at h
      exact h
    · have e : ((v.toNat : Nat) : Int) % M = v := by
        rw [Int.toNat_of_nonneg hv0]
        exact Int.emod_eq_of_lt hv0 (by omega)
      refine ⟨v.toNat, by omega, by omega, e, ?_, decimalValue_Itoa_nonneg v hv0⟩
      have h := hget v.toNat (by omega) (by omega)
      rw [e] at h
      exact h

/-- Three workers and `max-sleep` 3: the third worker gets `3 mod 3`, which
is written `0` and read back as 0, and the second gets `2`, read back as 2. -/
theorem worker_params_witness :
    (samplePool3.workers[3 - 1]? = some (run (sampleEnv.worker 3) 1 (Itoa ((3 : Int) % 3))) ∧
      Itoa ((3 : Int) % 3) = "0" ∧
      decimalValue (Itoa ((3 : Int) % 3)) = some ((3 : Int) % 3).toNat) ∧
    (Itoa 2 = "2" ∧
      ∃ i : Nat, 1 ≤ i ∧ i ≤ 3 ∧ (i : Int) % 3 = 2 ∧
        samplePool3.workers[i - 1]? = some (run (sampleEnv.worker i) 1 (Itoa 2)) ∧
        decimalValue (Itoa 2) = some (2 : Int).toNat) :=
  ⟨⟨((worker_params sampleEnv 3 1 3 samplePool3 (by decide) (by decide) rfl).2.1 3 (by decide)
      (by decide)).1, by decide,
    ((worker_params sampleEnv 3 1 3 samplePool3 (by decide) (by decide) rfl).2.1 3 (by decide)
      (by decide)).2.2.2.1⟩,
   by decide,
   (worker_params sampleEnv 3 1 3 samplePool3 (by decide) (by decide) rfl).2.2.1 (by decide) 2
     (by decide) (by decide)⟩

end NomadDispatch
